import Mathlib

/-!
Verification of the query-understanding-and-retrieval pipeline of the
startup-ecosystem-intelligence repository.

The Lean definitions below are a shallow embedding of the Python sources:
  - backend/api/graph_rag_service.py  (GraphRAGService: filter extraction,
    routing, hybrid search orchestration, response assembly)
  - backend/utils/neo4j_store.py      (Neo4jStore: vector / filter / hybrid
    search, batch fallback, company upsert)

Modelling conventions:
  - Python strings are Lean `String` / `List Char`; all scanning is done on
    the character list.  Inputs are assumed ASCII, so `Char.toLower` and the
    word/whitespace character classes coincide with Python's regex classes.
  - Python floats are modelled by exact fractions (`Frac`, an executable
    numerator/denominator pair); `Frac.toRat` maps them to `ℚ` for the
    order-theoretic statements.  All model constructors keep denominators
    positive.
  - External effectful collaborators (embedding provider, cosine similarity,
    LLM planner, LLM completion) are function parameters; a call that may
    raise is modelled with `Option` (`none` = an exception propagates).
  - Cypher queries are translated row-by-row; where Neo4j leaves row order
    unspecified (ties under ORDER BY, DISTINCT, Python set iteration) the
    model fixes insertion/first-occurrence order, and no theorem below
    depends on the choice except on fully concrete inputs.
-/

namespace SEI

/-! ## Character and string utilities -/

/-- Python regex word character `\w` (ASCII fragment). -/
def isWordChar (c : Char) : Bool := c.isAlphanum || c = '_'

/-- Python regex whitespace `\s` (ASCII fragment). -/
def isWsChar (c : Char) : Bool := c.isWhitespace

/-- Lowercasing on the character list (Python `str.lower`, ASCII fragment). -/
def lcList (l : List Char) : List Char := l.map Char.toLower

/-- Python `str.lower`. -/
def lower (s : String) : String := String.mk (lcList s.data)

/-- Python `needle in hay` substring test. -/
def listContains : List Char → List Char → Bool
  | [], needle => needle.isEmpty
  | hay@(_ :: t), needle => needle.isPrefixOf hay || listContains t needle

/-- Python `needle in hay` on strings. -/
def strContains (hay needle : String) : Bool := listContains hay.data needle.data

/-- Python `str.split()` helper (split on whitespace, dropping empties). -/
def splitWsAux : List Char → List Char → List (List Char)
  | [], acc => if acc.isEmpty then [] else [acc.reverse]
  | c :: t, acc =>
    if isWsChar c then
      (if acc.isEmpty then splitWsAux t [] else acc.reverse :: splitWsAux t [])
    else splitWsAux t (c :: acc)

/-- Python `str.split()`. -/
def splitWs (l : List Char) : List (List Char) := splitWsAux l []

/-- Python `' '.join(words)`. -/
def joinSpace (ws : List (List Char)) : List Char := List.intercalate [' '] ws

/-- Python `str.strip()`. -/
def trimWs (l : List Char) : List Char :=
  ((l.dropWhile isWsChar).reverse.dropWhile isWsChar).reverse

/-- Python `str.strip()` on strings. -/
def strTrim (s : String) : String := String.mk (trimWs s.data)

/-- Python `str.capitalize()` (`node_type.capitalize()` in the store). -/
def capitalize (s : String) : String :=
  match s.data with
  | [] => ""
  | c :: t => String.mk (c.toUpper :: lcList t)

/-- Determinisation of Python `list(set(xs))`: keep first occurrences.
All uses downstream are order-insensitive membership tests. -/
def dedupKFAux {α : Type} [DecidableEq α] (seen : List α) : List α → List α
  | [] => []
  | x :: t => if x ∈ seen then dedupKFAux seen t else x :: dedupKFAux (x :: seen) t

/-- First-occurrence deduplication. -/
def dedupKF {α : Type} [DecidableEq α] (l : List α) : List α := dedupKFAux [] l

/-- Insert for the stable sort: place `x` before the first `y` with `le x y`. -/
def sortInsert {α : Type} (le : α → α → Bool) (x : α) : List α → List α
  | [] => [x]
  | y :: ys => if le x y then x :: y :: ys else y :: sortInsert le x ys

/-- Stable insertion sort (model of Python's stable `list.sort` and of
Cypher ORDER BY with ties kept in row order). -/
def sortBy {α : Type} (le : α → α → Bool) : List α → List α
  | [] => []
  | x :: xs => sortInsert le x (sortBy le xs)

theorem sortInsert_perm {α : Type} (le : α → α → Bool) (x : α) :
    ∀ l : List α, (sortInsert le x l).Perm (x :: l) := by
  intro l
  induction l with
  | nil => simp [sortInsert]
  | cons y ys ih =>
    by_cases h : le x y = true
    · simp [sortInsert, h]
    · simp only [sortInsert, h]
      exact (List.Perm.cons y ih).trans (List.Perm.swap x y ys)

theorem sortBy_perm {α : Type} (le : α → α → Bool) :
    ∀ l : List α, (sortBy le l).Perm l := by
  intro l
  induction l with
  | nil => simp [sortBy]
  | cons x xs ih =>
    exact (sortInsert_perm le x (sortBy le xs)).trans (List.Perm.cons x ih)

theorem mem_sortBy {α : Type} {le : α → α → Bool} {x : α} {l : List α} :
    x ∈ sortBy le l ↔ x ∈ l := (sortBy_perm le l).mem_iff

/-! ## Executable fractions

Python float arithmetic on scores is modelled by exact fractions.  The model
only ever builds fractions with positive denominators (`den : Nat`, nonzero
at every construction site); `toRat` interprets them in `ℚ`. -/

structure Frac where
  num : Int
  den : Nat
deriving DecidableEq

/-- Fraction from a natural number. -/
def Frac.ofNat (n : Nat) : Frac := ⟨n, 1⟩

/-- Exact addition (denominators multiply). -/
def Frac.add (a b : Frac) : Frac := ⟨a.num * b.den + b.num * a.den, a.den * b.den⟩

/-- Exact multiplication. -/
def Frac.mul (a b : Frac) : Frac := ⟨a.num * b.num, a.den * b.den⟩

/-- Boolean order on fractions with positive denominators. -/
def Frac.ble (a b : Frac) : Bool := a.num * (b.den : Int) ≤ b.num * (a.den : Int)

/-- Interpretation in `ℚ`. -/
def Frac.toRat (a : Frac) : ℚ := (a.num : ℚ) / (a.den : ℚ)

theorem Frac.toRat_mul (a b : Frac) : (a.mul b).toRat = a.toRat * b.toRat := by
  simp only [Frac.mul, Frac.toRat, Int.cast_mul, Nat.cast_mul]
  try rw [div_mul_div_comm]

theorem Frac.toRat_add (a b : Frac) (ha : a.den ≠ 0) (hb : b.den ≠ 0) :
    (a.add b).toRat = a.toRat + b.toRat := by
  simp only [Frac.add, Frac.toRat]
  have ha' : ((a.den : ℚ)) ≠ 0 := by exact_mod_cast ha
  have hb' : ((b.den : ℚ)) ≠ 0 := by exact_mod_cast hb
  field_simp
  try push_cast
  try ring

/-! ## Numeric filter extraction (`GraphRAGService._extract_numeric_filters`)

The six regex patterns of the source are hand-compiled to matchers on the
character list.  Python's backtracking is equivalent to the committed greedy
matching used here because
  - each quantified class (`\s+`, `\d+`, `\w+`) is followed by a token from a
    disjoint class, so giving back characters can never help, and
  - the alternatives inside each pattern start with pairwise distinct first
    letters, so at most one alternative can fire at a given position. -/

inductive Dir where
  | dmin : Dir
  | dmax : Dir
deriving DecidableEq

/-- The `{direction}` part of the produced filter key. -/
def Dir.str : Dir → String
  | .dmin => "min"
  | .dmax => "max"

/-- Digit run to number (`int(...)` on the captured group). -/
def digitsToNat (ds : List Char) : Nat := ds.foldl (fun a c => 10 * a + (c.toNat - 48)) 0

/-- Case-insensitive literal (`re.IGNORECASE`); the literal is lowercase. -/
def litCI : List Char → List Char → Option (List Char)
  | [], cs => some cs
  | _ :: _, [] => none
  | p :: ps, c :: cs => if c.toLower = p then litCI ps cs else none

/-- Words joined by `\s+` inside a pattern alternative. -/
def phraseCI : List (List Char) → List Char → Option (List Char)
  | [], cs => some cs
  | [w], cs => litCI w cs
  | w :: ws, cs =>
    match litCI w cs with
    | none => none
    | some r =>
      let s := r.span isWsChar
      if s.1.isEmpty then none else phraseCI ws s.2

/-- First alternative that consumes (see the disjointness note above). -/
def tryAlts : List (List Char → Option (List Char)) → List Char → Option (List Char)
  | [], _ => none
  | f :: fs, cs =>
    match f cs with
    | some r => some r
    | none => tryAlts fs cs

/-- Pattern 1: `([><]=?)\s*(\d+)\s+(\w+)`; min for `>`/`>=`, max otherwise. -/
def matchP1 : List Char → Option (Nat × Dir × Nat × List Char)
  | [] => none
  | c :: rest =>
    if c = '>' || c = '<' then
      let dir := if c = '>' then Dir.dmin else Dir.dmax
      let rest1 := match rest with
        | '=' :: r => r
        | _ => rest
      let p2 := rest1.span isWsChar
      let p3 := p2.2.span Char.isDigit
      if p3.1.isEmpty then none else
      let p4 := p3.2.span isWsChar
      if p4.1.isEmpty then none else
      let p5 := p4.2.span isWordChar
      if p5.1.isEmpty then none else
      some ((c :: rest).length - p5.2.length, dir, digitsToNat p3.1, p5.1)
    else none

/-- Pattern 2: `(\d+)\+\s+(\w+)` ("100+ stars"), always min. -/
def matchP2 (cs : List Char) : Option (Nat × Dir × Nat × List Char) :=
  let d := cs.span Char.isDigit
  if d.1.isEmpty then none else
  match d.2 with
  | '+' :: r =>
    let w := r.span isWsChar
    if w.1.isEmpty then none else
    let m := w.2.span isWordChar
    if m.1.isEmpty then none else
    some (cs.length - m.2.length, Dir.dmin, digitsToNat d.1, m.1)
  | _ => none

/-- `minimum\s+of?` alternative of pattern 5.  Consuming the optional `f`
greedily is equivalent to Python's backtracking: if the `f` is present but
taking it fails later, not taking it leaves the `f` where `\s+` must match. -/
def altMinMaxOf (word : List Char) (cs : List Char) : Option (List Char) :=
  match litCI word cs with
  | none => none
  | some r =>
    let s := r.span isWsChar
    if s.1.isEmpty then none else
    match litCI ['o'] s.2 with
    | none => none
    | some r2 =>
      match r2 with
      | c :: rest => if c.toLower = 'f' then some rest else some r2
      | [] => some r2

/-- Shared tail `\s+(\d+)\s+(\w+)` of patterns 3-6 after the alternation. -/
def matchCmpPhrase (alts : List (List Char → Option (List Char))) (dir : Dir)
    (cs : List Char) : Option (Nat × Dir × Nat × List Char) :=
  match tryAlts alts cs with
  | none => none
  | some r1 =>
    let s := r1.span isWsChar
    if s.1.isEmpty then none else
    let d := s.2.span Char.isDigit
    if d.1.isEmpty then none else
    let s2 := d.2.span isWsChar
    if s2.1.isEmpty then none else
    let w := s2.2.span isWordChar
    if w.1.isEmpty then none else
    some (cs.length - w.2.length, dir, digitsToNat d.1, w.1)

/-- Pattern 3: `(more\s+than|greater\s+than|over|above)\s+(\d+)\s+(\w+)`. -/
def matchP3 : List Char → Option (Nat × Dir × Nat × List Char) :=
  matchCmpPhrase
    [phraseCI ["more".data, "than".data], phraseCI ["greater".data, "than".data],
     litCI "over".data, litCI "above".data] Dir.dmin

/-- Pattern 4: `(less\s+than|fewer\s+than|under|below)\s+(\d+)\s+(\w+)`. -/
def matchP4 : List Char → Option (Nat × Dir × Nat × List Char) :=
  matchCmpPhrase
    [phraseCI ["less".data, "than".data], phraseCI ["fewer".data, "than".data],
     litCI "under".data, litCI "below".data] Dir.dmax

/-- Pattern 5: `(at\s+least|minimum\s+of?|no\s+less\s+than)\s+(\d+)\s+(\w+)`. -/
def matchP5 : List Char → Option (Nat × Dir × Nat × List Char) :=
  matchCmpPhrase
    [phraseCI ["at".data, "least".data], altMinMaxOf "minimum".data,
     phraseCI ["no".data, "less".data, "than".data]] Dir.dmin

/-- Pattern 6: `(at\s+most|maximum\s+of?|no\s+more\s+than)\s+(\d+)\s+(\w+)`. -/
def matchP6 : List Char → Option (Nat × Dir × Nat × List Char) :=
  matchCmpPhrase
    [phraseCI ["at".data, "most".data], altMinMaxOf "maximum".data,
     phraseCI ["no".data, "more".data, "than".data]] Dir.dmax

/-- `match.start()`, `match.end()`, the derived filter key and value. -/
structure MRec where
  start : Nat
  stop : Nat
  key : String
  value : Nat
deriving DecidableEq

/-- Python `'stars'.rstrip('s')`. -/
def stripTrailingS (l : List Char) : List Char :=
  (l.reverse.dropWhile (fun c => c = 's')).reverse

/-- `re.finditer`: scan left to right, non-overlapping, resume after a match. -/
def scanPattern (m : List Char → Option (Nat × Dir × Nat × List Char)) :
    Nat → List Char → Nat → List MRec
  | 0, _, _ => []
  | _ + 1, [], _ => []
  | fuel + 1, cs@(_ :: t), pos =>
    match m cs with
    | some (len, dir, v, metric) =>
      { start := pos, stop := pos + len,
        key := dir.str ++ "_" ++ String.mk (stripTrailingS metric),
        value := v } :: scanPattern m fuel (cs.drop len) (pos + len)
    | none => scanPattern m fuel t (pos + 1)

/-- The pattern table, in source order. -/
def numPatterns : List (List Char → Option (Nat × Dir × Nat × List Char)) :=
  [matchP1, matchP2, matchP3, matchP4, matchP5, matchP6]

/-- `all_matches` collected per pattern, in pattern order then position order. -/
def allNumMatches (q : String) : List MRec :=
  numPatterns.flatMap (fun m => scanPattern m (q.data.length + 1) q.data 0)

/-- Python dict assignment `filters[key] = value` (replace or append). -/
def dictInsert : List (String × Nat) → String → Nat → List (String × Nat)
  | [], k, v => [(k, v)]
  | (k0, v0) :: t, k, v =>
    if k0 = k then (k0, v) :: t else (k0, v0) :: dictInsert t k v

/-- `cleaned_query[:start] + ' ' + cleaned_query[end:]`. -/
def removeSpan (cq : List Char) (a b : Nat) : List Char :=
  cq.take a ++ ' ' :: cq.drop b

/-- The fold over the matches sorted by start position (reverse order). -/
def applyNumMatches : List MRec → List (String × Nat) × List Char →
    List (String × Nat) × List Char
  | [], st => st
  | m :: t, (fs, cq) =>
    applyNumMatches t (dictInsert fs m.key m.value, removeSpan cq m.start m.stop)

/-- `GraphRAGService._extract_numeric_filters`. -/
def extractNumericFilters (q : String) : List (String × Nat) × String :=
  let ms := sortBy (fun a b => decide (b.start ≤ a.start)) (allNumMatches q)
  let res := applyNumMatches ms ([], q.data)
  (res.1, String.mk (joinSpace (splitWs res.2)))

/-! ## Batch extraction (`GraphRAGService._extract_batch_from_query`)

Three regexes over the lowercased query:
  1. `\b([ws])\s*'?\s*(20)?(\d{2})\b`  (first match only, via `re.search`)
  2. `\b(winter|summer)\s+20(\d{2})\b`
  3. `yc\s+([ws])\s*(\d{2})\b` -/

/-- `\b` holds before the current (word) character. -/
def boundaryBefore : Option Char → Bool
  | none => true
  | some c => !isWordChar c

/-- `\b` holds after the consumed text. -/
def boundaryAfter : List Char → Bool
  | [] => true
  | c :: _ => !isWordChar c

/-- Tail of regex 1 after the `[ws]` character: `\s*'?\s*(20)?(\d{2})\b`.
Greedy `(20)?` with the Python fallback when the trailing `\b` fails. -/
def batch1Short (c : Char) (r3 : List Char) : Option (Char × Char × Char) :=
  match r3 with
  | d1 :: d2 :: r4 =>
    if d1.isDigit && d2.isDigit && boundaryAfter r4 then some (c, d1, d2) else none
  | _ => none

/-- Regex 1 matcher at a position whose first character is `c`. -/
def batch1At (c : Char) (rest : List Char) : Option (Char × Char × Char) :=
  if c = 'w' || c = 's' then
    let r1 := (rest.span isWsChar).2
    let r2 := match r1 with
      | a :: t => if a = Char.ofNat 39 then t else r1
      | [] => r1
    let r3 := (r2.span isWsChar).2
    match r3 with
    | '2' :: '0' :: d1 :: d2 :: r4 =>
      if d1.isDigit && d2.isDigit && boundaryAfter r4 then some (c, d1, d2)
      else batch1Short c r3
    | _ => batch1Short c r3
  else none

/-- `re.search` for regex 1: first matching position. -/
def searchBatch1Aux : Option Char → List Char → Option (Char × Char × Char)
  | _, [] => none
  | prev, c :: rest =>
    match (if boundaryBefore prev then batch1At c rest else none) with
    | some r => some r
    | none => searchBatch1Aux (some c) rest

/-- First match of regex 1 on the lowercased query. -/
def searchBatch1 (q : List Char) : Option (Char × Char × Char) := searchBatch1Aux none q

/-- Regex 2 matcher at a position (season word, then `\s+20(\d{2})\b`). -/
def batch2At (cs : List Char) : Option (String × Char × Char) :=
  let seasonTail (w : String) (r : List Char) : Option (String × Char × Char) :=
    let s := r.span isWsChar
    if s.1.isEmpty then none else
    match s.2 with
    | '2' :: '0' :: d1 :: d2 :: r4 =>
      if d1.isDigit && d2.isDigit && boundaryAfter r4 then some (w, d1, d2) else none
    | _ => none
  if "winter".data.isPrefixOf cs then seasonTail "winter" (cs.drop 6)
  else if "summer".data.isPrefixOf cs then seasonTail "summer" (cs.drop 6)
  else none

/-- `re.search` for regex 2. -/
def searchBatch2Aux : Option Char → List Char → Option (String × Char × Char)
  | _, [] => none
  | prev, c :: rest =>
    match (if boundaryBefore prev then batch2At (c :: rest) else none) with
    | some r => some r
    | none => searchBatch2Aux (some c) rest

/-- First match of regex 2 on the lowercased query. -/
def searchBatch2 (q : List Char) : Option (String × Char × Char) := searchBatch2Aux none q

/-- Regex 3 matcher at a position (`yc\s+([ws])\s*(\d{2})\b`, no left `\b`). -/
def batch3At (cs : List Char) : Option (Char × Char × Char) :=
  if "yc".data.isPrefixOf cs then
    let s := (cs.drop 2).span isWsChar
    if s.1.isEmpty then none else
    match s.2 with
    | c :: r2 =>
      if c = 'w' || c = 's' then
        let r3 := (r2.span isWsChar).2
        match r3 with
        | d1 :: d2 :: r4 =>
          if d1.isDigit && d2.isDigit && boundaryAfter r4 then some (c, d1, d2) else none
        | _ => none
      else none
    | [] => none
  else none

/-- `re.search` for regex 3 (any position). -/
def searchBatch3 : List Char → Option (Char × Char × Char)
  | [] => none
  | c :: rest =>
    match batch3At (c :: rest) with
    | some r => some r
    | none => searchBatch3 rest

/-- `'winter' if m.group(1) == 'w' else 'summer'` (as characters). -/
def seasonChars (c : Char) : List Char :=
  if c = 'w' then "winter".data else "summer".data

/-- `GraphRAGService._extract_batch_from_query` (f-string concatenation is
written out on the character lists). -/
def extractBatchFromQuery (query : String) : Option (List String) :=
  if query = "" then none else
  let q := lcList query.data
  let t1 := match searchBatch1 q with
    | some (c, d1, d2) =>
      [String.mk (seasonChars c ++ [' ', '2', '0', d1, d2]),
       String.mk ['2', '0', d1, d2], String.mk [c, d1, d2]]
    | none => []
  let t2 := match searchBatch2 q with
    | some (w, d1, d2) => [String.mk (w.data ++ [' ', '2', '0', d1, d2])]
    | none => []
  let t3 := match searchBatch3 q with
    | some (c, d1, d2) => [String.mk (seasonChars c ++ [' ', '2', '0', d1, d2])]
    | none => []
  let tokens := dedupKF ((t1 ++ t2 ++ t3).filter (fun t => t ≠ ""))
  if tokens.isEmpty then none else some tokens

/-! ## Alias resolution and query analysis (`GraphRAGService`)

The alias maps are loaded once at service construction (from Neo4j, an
environment JSON, or empty); the model takes them as a preloaded `Config`. -/

structure Config where
  locationAliases : List (String × List String)
  industryAliases : List (String × List String)
  knownIndustries : List String
deriving DecidableEq

/-- Python `dict.get(k, [])`. -/
def lookupAliases (m : List (String × List String)) (k : String) : List String :=
  match m.lookup k with
  | some v => v
  | none => []

/-- `GraphRAGService._extract_location_from_query` (first alias hit wins). -/
def extractLocAux (q : String) : List (String × List String) → Option String
  | [] => none
  | (canonical, aliases) :: t =>
    if aliases.any (fun a => strContains q a) then some canonical else extractLocAux q t

/-- Canonical location code from the query. -/
def extractLocationFromQuery (cfg : Config) (query : String) : Option String :=
  extractLocAux (lower query) cfg.locationAliases

/-- `GraphRAGService._location_matches`. -/
def locationMatches (cfg : Config) (code : String) (locText : String) : Bool :=
  if code = "" || locText = "" then false
  else (lookupAliases cfg.locationAliases code).any (fun a => strContains (lower locText) a)

/-- `GraphRAGService._aliases_for_code` (callers guard the falsy case). -/
def aliasesForCode (cfg : Config) (code : String) : List String :=
  (lookupAliases cfg.locationAliases code).map lower

/-- `GraphRAGService._derive_exclude_locations`. -/
def deriveExcludeLocations (cfg : Config) (code : Option String) : Option (List String) :=
  match code with
  | none => none
  | some c =>
    if c = "" then none else
    let hubs := (dedupKF (cfg.locationAliases.map (fun p => p.1))).filter (fun k => k ≠ c)
    let candidates := hubs.filter (fun k => k = "nyc" || k = "la" || k = "boston" || k = "london")
    let excl := (candidates.flatMap (fun k => lookupAliases cfg.locationAliases k)).map lower
    if excl.isEmpty then none else some excl

/-- Name-list fallback of `_extract_industries_from_query`. -/
def industryNameFallback (cfg : Config) (q : String) : Option (List String) :=
  if cfg.knownIndustries.isEmpty then none else
  let matched := dedupKF (cfg.knownIndustries.filter (fun ind => ind ≠ "" && strContains q ind))
  if matched.isEmpty then none else some matched

/-- `GraphRAGService._extract_industries_from_query`. -/
def extractIndustriesFromQuery (cfg : Config) (query : String) : Option (List String) :=
  if query = "" then none else
  let q := lower query
  if cfg.industryAliases.isEmpty then industryNameFallback cfg q
  else
    let matched := dedupKF (cfg.industryAliases.filterMap (fun p =>
      if p.1 = "" then none
      else if strContains q p.1 then some p.1
      else if p.2.any (fun al =>
        let a := lower (strTrim al)
        a ≠ "" && strContains q a) then some p.1
      else none))
    if !matched.isEmpty then some matched else industryNameFallback cfg q

/-- Industry-alias expansion inlined in the filter-only branch of `search`. -/
def expandIndustries (cfg : Config) (inds : Option (List String)) : Option (List String) :=
  match inds with
  | none => none
  | some filters =>
    let expanded := dedupKF (filters.flatMap (fun canonical =>
      let token := lower (strTrim canonical)
      if token = "" then []
      else token :: ((lookupAliases cfg.industryAliases token).filterMap (fun al =>
        let a := lower (strTrim al)
        if a = "" then none else some a))))
    if expanded.isEmpty then none else some expanded

/-- Repository vocabulary of `_detect_entity_type`. -/
def repoTerms : List String :=
  ["repository", "repo", "github", "code", "project", "package", "library",
   "framework", "sdk", "cli", "tool", "toolkit", "utility", "plugin",
   "extension", "module", "api"]

/-- Company vocabulary of `_detect_entity_type`. -/
def companyTerms : List String :=
  ["company", "startup", "business", "firm", "venture", "enterprise",
   "organization", "corp"]

/-- Person vocabulary of `_detect_entity_type`. -/
def personTerms : List String :=
  ["founder", "person", "people", "developer", "engineer", "ceo", "cto",
   "investor", "employee", "team"]

/-- `GraphRAGService._detect_entity_type` (repository > company > person). -/
def detectEntityType (query : String) : Option String :=
  let q := lower query
  if repoTerms.any (fun t => strContains q t) then some "repository"
  else if companyTerms.any (fun t => strContains q t) then some "company"
  else if personTerms.any (fun t => strContains q t) then some "person"
  else none

/-- Investor vocabulary of `_derive_person_roles_from_query`. -/
def investorTerms : List String :=
  ["investor", "investors", "vc", "venture capital", "venture-capital",
   "angel", "lead investor", "general partner", "gp", "partner", "principal",
   "associate"]

/-- Founder vocabulary of `_derive_person_roles_from_query`. -/
def founderTerms : List String :=
  ["founder", "founders", "cofounder", "co-founder", "ceo", "cto", "cpo",
   "head of"]

/-- `GraphRAGService._derive_person_roles_from_query` (investor first). -/
def derivePersonRolesFromQuery (query : String) : Option (List String) :=
  if query = "" then none else
  let q := lower query
  if investorTerms.any (fun t => strContains q t) then some ["investor"]
  else if founderTerms.any (fun t => strContains q t) then some ["founder"]
  else none

/-- The analytic-term list of the filter-only routing check in `search`. -/
def analyticTerms : List String :=
  ["why", "how", "explain", "compare", "similar", "rank", "best", "top", "most"]

/-- `is_analytic = any(t in ql for t in analytic_terms)`. -/
def queryIsAnalytic (query : String) : Bool :=
  analyticTerms.any (fun t => strContains (lower query) t)

/-- The `max`-style term list of the special repository query check. -/
def maxTerms : List String := ["max", "most", "top", "highest", "best"]

/-- Word-bounded occurrence (`\bw\b`) of a literal made of word characters
(possibly with internal spaces, matched literally). -/
def containsWordAux (w : List Char) : Option Char → List Char → Bool
  | _, [] => false
  | prev, c :: t =>
    (boundaryBefore prev && w.isPrefixOf (c :: t) && boundaryAfter ((c :: t).drop w.length))
      || containsWordAux w (some c) t

/-- Word-bounded containment on strings. -/
def containsWord (q w : String) : Bool := containsWordAux w.data none q.data

/-- `\btop \d+\b` occurrence. -/
def containsTopNumAux : Option Char → List Char → Bool
  | _, [] => false
  | prev, c :: t =>
    (boundaryBefore prev && "top ".data.isPrefixOf (c :: t) &&
      (let d := ((c :: t).drop 4).span Char.isDigit
       !d.1.isEmpty && boundaryAfter d.2))
      || containsTopNumAux (some c) t

/-- `\btop \d+\b` on strings. -/
def containsTopNum (q : String) : Bool := containsTopNumAux none q.data

/-- One alternative of `\b(20\d{2}|w\d{2}|s\d{2}|series [abc]|seed)\b`
at a fixed position. -/
def timeAltAt (cs : List Char) : Bool :=
  (match cs with
   | '2' :: '0' :: d1 :: d2 :: r => d1.isDigit && d2.isDigit && boundaryAfter r
   | _ => false) ||
  (match cs with
   | c :: d1 :: d2 :: r => (c = 'w' || c = 's') && d1.isDigit && d2.isDigit && boundaryAfter r
   | _ => false) ||
  ("series ".data.isPrefixOf cs &&
    (match cs.drop 7 with
     | c :: r => (c = 'a' || c = 'b' || c = 'c') && boundaryAfter r
     | [] => false)) ||
  ("seed".data.isPrefixOf cs && boundaryAfter (cs.drop 4))

/-- Search for the season/time token pattern. -/
def containsTimeTokenAux : Option Char → List Char → Bool
  | _, [] => false
  | prev, c :: t => (boundaryBefore prev && timeAltAt (c :: t)) || containsTimeTokenAux (some c) t

/-- `\b(20\d{2}|w\d{2}|s\d{2}|series [abc]|seed)\b` on strings. -/
def containsTimeToken (q : String) : Bool := containsTimeTokenAux none q.data

/-- `GraphRAGService._is_complex_query` (heuristic point system, ≥ 3). -/
def isComplexQuery (query : String) : Bool :=
  let ql := lower query
  let ents := (["founder", "person", "repo", "repository", "company", "startup"].filter
    (fun k => strContains ql k)).length
  let s1 := if ents ≥ 2 then 2 else 0
  let s2 := if ["and", "or", "not", "without", "except", "between"].any
      (fun w => containsWord ql w) then 2 else 0
  let s3 := if (ql.data.any (fun c => c = '<' || c = '>')) ||
      (["at least", "at most", "over", "under", "more than", "less than", "best", "most"].any
        (fun w => containsWord ql w)) || containsTopNum ql then 2 else 0
  let s4 := if ["who", "that", "which"].any (fun w => containsWord ql w) then 1 else 0
  let s5 := if (["in", "near", "from"].any (fun w => containsWord ql w)) &&
      containsTimeToken ql then 2 else 0
  let s6 := if ["compare", "rank", "summarize", "recommend", "explain", "why", "how"].any
      (fun w => containsWord ql w) then 2 else 0
  let s7 := if (splitWs query.data).length > 12 then 1 else 0
  decide (s1 + s2 + s3 + s4 + s5 + s6 + s7 ≥ 3)

/-- The compact JSON plan emitted by the planner. -/
structure Plan where
  filterType : Option String
  personRoles : Option (List String)
  minRepoStars : Option Int
  queryFocus : Option String
deriving DecidableEq

/-- Heuristic fallback of `_plan_query`. -/
def heuristicPlan (query : String) : Plan :=
  let ql := lower query
  if ["founder", "founders", "people", "person", "ceo", "cto"].any
      (fun k => strContains ql k) then
    { filterType := some "person", personRoles := some ["founder"],
      minRepoStars := none, queryFocus := some query }
  else if ["repo", "repository", "github", "code"].any (fun k => strContains ql k) then
    { filterType := some "repository", personRoles := none,
      minRepoStars := none, queryFocus := some query }
  else
    { filterType := some "company", personRoles := none,
      minRepoStars := none, queryFocus := some query }

/-- `GraphRAGService._plan_query`: LLM plan, silently falling back to the
heuristic on any failure (`none`). -/
def planQuery (llm : String → Option Plan) (query : String) : Plan :=
  match llm query with
  | some p => p
  | none => heuristicPlan query

/-- Python truthiness of an optional list. -/
def optListTruthy : Option (List String) → Bool
  | none => false
  | some l => !l.isEmpty

/-- Python truthiness of an optional string. -/
def optStrTruthy : Option String → Bool
  | none => false
  | some s => s ≠ ""

/-- Python truthiness of an optional number (`0` is falsy). -/
def optNumTruthy : Option Int → Bool
  | none => false
  | some n => n ≠ 0

/-- Application of a planner result to the search parameters (the block
repeated at both planner call sites in `search`, including the follow-up
role derivation for person queries). -/
def applyPlan (p : Plan) (query : String) (ft : Option String)
    (roles : Option (List String)) (mrs : Option Int) (embQ : String) :
    Option String × Option (List String) × Option Int × String :=
  let ft1 := match p.filterType with
    | some s => some s
    | none => ft
  let roles1 := match p.personRoles with
    | some rs => some (rs.map lower)
    | none => roles
  let mrs1 := match p.minRepoStars with
    | some v => some v
    | none => mrs
  let embQ1 := match p.queryFocus with
    | some f => if strTrim f ≠ "" then strTrim f else embQ
    | none => embQ
  let roles2 := if ft1 = some "person" && !(optListTruthy roles1) then
      match derivePersonRolesFromQuery query with
      | some rs => some (rs.map lower)
      | none => roles1
    else roles1
  (ft1, roles2, mrs1, embQ1)

/-! ## The graph store (`Neo4jStore`)

A store is a list of property nodes plus a list of directed typed edges.
`cos` is the opaque similarity oracle (`gds.similarity.cosine`); embeddings
are lists of fractions. -/

structure NodeRec where
  id : String
  label : String
  name : String
  description : String
  location : String
  batch : String
  stars : Option Int
  role : Option String
  roles : Option (List String)
  embedding : Option (List Frac)
  aliases : List String
deriving DecidableEq

structure Edge where
  src : String
  dst : String
  typ : String
  confidence : Option Frac
  method : Option String
deriving DecidableEq

structure Store where
  nodes : List NodeRec
  edges : List Edge
  cos : List Frac → List Frac → Frac

/-- Company properties attached by enrichment / the top-starred query
(`clean_neo4j_data(dict(company_node))` with the embedding popped). -/
structure CompanyAttach where
  id : String
  name : String
  description : String
  location : String
  batch : String
deriving DecidableEq

/-- The attached `company_relationship` object. -/
structure RelAttach where
  confidence : Frac
  method : String
deriving DecidableEq

/-- The `metadata` dict of a match (cleaned node properties; `embedding` is
`none` when the store popped it before returning). -/
structure Meta where
  id : String
  name : String
  description : String
  location : String
  batch : String
  stars : Option Int
  role : Option String
  roles : Option (List String)
  embedding : Option (List Frac)
  company : Option CompanyAttach
  companyRel : Option RelAttach
deriving DecidableEq

/-- The `connection` object of a graph-expansion result. -/
structure Conn where
  fromId : String
  distance : Nat
  path : List String
deriving DecidableEq

/-- One entry of a result list (`{id, score, type, metadata[, connection]}`). -/
structure Match where
  id : String
  score : Frac
  typ : String
  metadata : Meta
  connection : Option Conn
deriving DecidableEq

/-- Node properties to metadata; `popEmb` models `pop('embedding', None)`. -/
def nodeMeta (n : NodeRec) (popEmb : Bool) : Meta :=
  { id := n.id, name := n.name, description := n.description,
    location := n.location, batch := n.batch, stars := n.stars,
    role := n.role, roles := n.roles,
    embedding := if popEmb then none else n.embedding,
    company := none, companyRel := none }

/-- Label restriction from `node_type` (`n:{node_type.capitalize()}`). -/
def labelOk (nodeType : Option String) (label : String) : Bool :=
  match nodeType with
  | none => true
  | some t => label = capitalize t

/-- `$location_filters IS NULL OR ANY(loc ... toLower(location) CONTAINS loc)`. -/
def locFilterOk (locF : Option (List String)) (location : String) : Bool :=
  match locF with
  | none => true
  | some ls => ls.any (fun l => strContains (lower location) l)

/-- `$batch_filters IS NULL OR ANY(b ... toLower(batch) CONTAINS b)`. -/
def batchFilterOk (batchF : Option (List String)) (batch : String) : Bool :=
  match batchF with
  | none => true
  | some bs => bs.any (fun b => strContains (lower batch) b)

/-- `$exclude_location_filters IS NULL OR NONE(ex ... CONTAINS ex)`. -/
def exclFilterOk (exclF : Option (List String)) (location : String) : Bool :=
  match exclF with
  | none => true
  | some ls => !(ls.any (fun l => strContains (lower location) l))

/-- `$min_repo_stars IS NULL OR (stars IS NOT NULL AND stars >= $min)`. -/
def starsFilterOk (mrs : Option Int) (stars : Option Int) : Bool :=
  match mrs with
  | none => true
  | some m =>
    match stars with
    | some s => decide (m ≤ s)
    | none => false

/-- The role predicate (`role IN filters OR ANY(r IN roles ...)`). -/
def roleFilterOk (roleF : Option (List String)) (role : Option String)
    (roles : Option (List String)) : Bool :=
  match roleF with
  | none => true
  | some rf =>
    (match role with
     | some r => rf.contains (lower r)
     | none => false) ||
    (match roles with
     | some rl => rl.any (fun r => rf.contains (lower r))
     | none => false)

/-- `Neo4jStore.vector_search`: label and filter predicates, similarity
scoring, `score >= min_score`, ORDER BY score DESC, LIMIT `top_k`; the
embedding is popped from the returned metadata. -/
def vectorSearch (st : Store) (qe : List Frac) (nodeType : Option String)
    (topK : Nat) (minScore : Frac) (locF batchF exclF : Option (List String))
    (mrs : Option Int) (roleF : Option (List String)) : List Match :=
  let cands := st.nodes.filter (fun n =>
    labelOk nodeType n.label && n.embedding.isSome &&
    locFilterOk locF n.location && batchFilterOk batchF n.batch &&
    exclFilterOk exclF n.location && starsFilterOk mrs n.stars &&
    roleFilterOk roleF n.role n.roles)
  let scored := cands.map (fun n => (n, st.cos qe (n.embedding.getD [])))
  let kept := scored.filter (fun p => Frac.ble minScore p.2)
  let sorted := sortBy (fun a b => Frac.ble b.2 a.2) kept
  (sorted.take topK).map (fun p =>
    { id := p.1.id, score := p.2, typ := p.1.label,
      metadata := nodeMeta p.1 true, connection := none })

/-- Undirected single steps from `pos` over not-yet-used edges
(`(start)-[*1..depth]-(connected)` traverses each relationship once). -/
def pathSteps (edges : List Edge) (pos : String) (used : List Nat) :
    List (String × Nat × String) :=
  edges.enum.filterMap (fun p =>
    if p.1 ∈ used then none
    else if p.2.src = pos then some (p.2.dst, p.1, p.2.typ)
    else if p.2.dst = pos then some (p.2.src, p.1, p.2.typ)
    else none)

/-- All relationship-unique paths of length `1..fuel` from `pos`:
(endpoint, `length(path)`, relationship types along the path). -/
def pathRecs (edges : List Edge) : Nat → String → List Nat → Nat → List String →
    List (String × Nat × List String)
  | 0, _, _, _, _ => []
  | fuel + 1, pos, used, dist, rels =>
    (pathSteps edges pos used).flatMap (fun step =>
      (step.1, dist + 1, rels ++ [step.2.2]) ::
        pathRecs edges fuel step.1 (step.2.1 :: used) (dist + 1) (rels ++ [step.2.2]))

/-- The expansion query of `hybrid_search`: paths `1..graph_depth`, the
connected node distinct from the start and passing all filter predicates,
`RETURN DISTINCT`, ORDER BY distance, LIMIT 20. -/
def expansionRecords (st : Store) (startId : String) (depth : Nat)
    (nodeType : Option String) (locF batchF exclF : Option (List String))
    (mrs : Option Int) (roleF : Option (List String)) :
    List (NodeRec × Nat × List String) :=
  let rows := (pathRecs st.edges depth startId [] 0 []).filterMap (fun pr =>
    match st.nodes.find? (fun n => n.id = pr.1) with
    | none => none
    | some n =>
      if n.id != startId && labelOk nodeType n.label &&
          locFilterOk locF n.location && batchFilterOk batchF n.batch &&
          exclFilterOk exclF n.location && starsFilterOk mrs n.stars &&
          roleFilterOk roleF n.role n.roles then
        some (n, pr.2.1, pr.2.2)
      else none)
  (sortBy (fun a b => decide (a.2.1 ≤ b.2.1)) (dedupKF rows)).take 20

/-- An expansion row turned into a result:
`score = vector_score * 0.7 + (1 / (distance + 1)) * 0.3`; note that the
source does not pop the embedding from expansion metadata. -/
def mkExpansionMatch (seed : Match) (rec : NodeRec × Nat × List String) : Match :=
  { id := rec.1.id,
    score := Frac.add (Frac.mul seed.score ⟨7, 10⟩) (Frac.mul ⟨1, rec.2.1 + 1⟩ ⟨3, 10⟩),
    typ := rec.1.label,
    metadata := nodeMeta rec.1 false,
    connection := some { fromId := seed.id, distance := rec.2.1, path := rec.2.2 } }

/-- Inner loop over the expansion rows of one seed, guarded by `seen_ids`. -/
def expandLoopInner (seed : Match) :
    List (NodeRec × Nat × List String) → List String → List Match →
    List String × List Match
  | [], seen, acc => (seen, acc)
  | r :: rs, seen, acc =>
    if r.1.id ∈ seen then expandLoopInner seed rs seen acc
    else expandLoopInner seed rs (r.1.id :: seen) (acc ++ [mkExpansionMatch seed r])

/-- Outer loop over the (top-5) seeds: each seed id enters `seen_ids` before
its expansion rows are processed. -/
def expandSeeds (st : Store) (depth : Nat) (nodeType : Option String)
    (locF batchF exclF : Option (List String)) (mrs : Option Int)
    (roleF : Option (List String)) :
    List Match → List String → List Match → List Match
  | [], _, acc => acc
  | seed :: rest, seen, acc =>
    let st1 := expandLoopInner seed
      (expansionRecords st seed.id depth nodeType locF batchF exclF mrs roleF)
      (seed.id :: seen) acc
    expandSeeds st depth nodeType locF batchF exclF mrs roleF rest st1.1 st1.2

/-- The graph-expansion part of `hybrid_search` (top 5 vector hits expanded). -/
def hybridExpanded (st : Store) (qe : List Frac) (nodeType : Option String)
    (topK depth : Nat) (locF batchF exclF : Option (List String))
    (mrs : Option Int) (roleF : Option (List String)) : List Match :=
  expandSeeds st depth nodeType locF batchF exclF mrs roleF
    ((vectorSearch st qe nodeType (topK * 2) ⟨0, 1⟩ locF batchF exclF mrs roleF).take 5)
    [] []

/-- `Neo4jStore.hybrid_search`: vector results (pool `top_k * 2`, min score
0.0) plus expansion results, sorted by score descending, first `top_k`. -/
def hybridSearch (st : Store) (qe : List Frac) (nodeType : Option String)
    (topK depth : Nat) (locF batchF exclF : Option (List String))
    (mrs : Option Int) (roleF : Option (List String)) : List Match :=
  let vres := vectorSearch st qe nodeType (topK * 2) ⟨0, 1⟩ locF batchF exclF mrs roleF
  let allRes := vres ++ hybridExpanded st qe nodeType topK depth locF batchF exclF mrs roleF
  (sortBy (fun a b => Frac.ble b.score a.score) allRes).take topK

/-- `Neo4jStore.find_companies_by_batch` (fallback; fixed score 0.4). -/
def findCompaniesByBatch (st : Store) (batchF : Option (List String))
    (limit : Nat) : List Match :=
  ((st.nodes.filter (fun n => n.label = "Company" && batchFilterOk batchF n.batch)).take limit).map
    (fun n => { id := n.id, score := ⟨2, 5⟩, typ := "Company",
                metadata := nodeMeta n true, connection := none })

/-- `EXISTS { (c)-[:IN_INDUSTRY]->(i:Industry) WHERE name/alias IN filters }`. -/
def industryHasMatch (st : Store) (fs : List String) (c : NodeRec) : Bool :=
  st.edges.any (fun e =>
    e.typ = "IN_INDUSTRY" && e.src = c.id &&
      st.nodes.any (fun i => i.id = e.dst && i.label = "Industry" &&
        (fs.contains (lower i.name) || i.aliases.any (fun a => fs.contains (lower a)))))

/-- Optional industry predicate. -/
def industryOk (st : Store) (indF : Option (List String)) (c : NodeRec) : Bool :=
  match indF with
  | none => true
  | some fs => industryHasMatch st fs c

/-- Lexicographic order on lowercased names (`ORDER BY toLower(name)`). -/
def lexLe : List Char → List Char → Bool
  | [], _ => true
  | _ :: _, [] => false
  | c :: cs, d :: ds => if c = d then lexLe cs ds else decide (c.toNat < d.toNat)

/-- Sort nodes by lowercased name. -/
def sortByName (ms : List NodeRec) : List NodeRec :=
  sortBy (fun a b => lexLe (lcList a.name.data) (lcList b.name.data)) ms

/-- Companies reached from a person by the role-gated relationship union
(`INVESTS_IN` when investor is requested, `FOUNDED` when founder is). -/
def personCompanies (st : Store) (roleF : Option (List String)) (p : NodeRec) :
    List NodeRec :=
  let inv := dedupKF (st.edges.filterMap (fun e =>
    if e.typ = "INVESTS_IN" && e.src = p.id then
      st.nodes.find? (fun n => n.id = e.dst && n.label = "Company")
    else none))
  let fnd := dedupKF (st.edges.filterMap (fun e =>
    if e.typ = "FOUNDED" && e.src = p.id then
      st.nodes.find? (fun n => n.id = e.dst && n.label = "Company")
    else none))
  (if roleF = none || (roleF.getD []).contains "investor" then inv else []) ++
  (if roleF = none || (roleF.getD []).contains "founder" then fnd else [])

/-- Companies owning a repository (`(c:Company)-[:OWNS|LIKELY_OWNS]->(r)`). -/
def repoCompanies (st : Store) (r : NodeRec) : List NodeRec :=
  dedupKF (st.edges.filterMap (fun e =>
    if (e.typ = "OWNS" || e.typ = "LIKELY_OWNS") && e.dst = r.id then
      st.nodes.find? (fun n => n.id = e.src && n.label = "Company")
    else none))

/-- `Neo4jStore.filter_search`: all matches meeting every filter, no cap,
ordered by name; three branches on the node type. -/
def filterSearch (st : Store) (nodeType : Option String)
    (batchF locF indF roleF : Option (List String)) (mrs : Option Int) :
    List Match :=
  if !(optStrTruthy nodeType) || nodeType.map lower = some "company" then
    (sortByName (st.nodes.filter (fun n =>
      n.label = "Company" && batchFilterOk batchF n.batch &&
      locFilterOk locF n.location && industryOk st indF n))).map
      (fun n => { id := n.id, score := ⟨1, 1⟩, typ := "Company",
                  metadata := nodeMeta n true, connection := none })
  else if nodeType.map lower = some "person" then
    (sortByName (st.nodes.filter (fun p =>
      p.label = "Person" && roleFilterOk roleF p.role p.roles &&
      (let comps := personCompanies st roleF p
       (match batchF with
        | none => true
        | some bs => bs.any (fun b => comps.any (fun c => strContains (lower c.batch) b))) &&
       (match locF with
        | none => true
        | some ls => ls.any (fun l => comps.any (fun c => strContains (lower c.location) l))) &&
       (match indF with
        | none => true
        | some fs => comps.any (fun c => industryHasMatch st fs c)))))).map
      (fun p => { id := p.id, score := ⟨1, 1⟩, typ := "Person",
                  metadata := nodeMeta p true, connection := none })
  else if nodeType.map lower = some "repository" then
    (sortByName (st.nodes.filter (fun r =>
      r.label = "Repository" && starsFilterOk mrs r.stars &&
      (let comps := repoCompanies st r
       (match locF with
        | none => true
        | some ls => ls.any (fun l => comps.any (fun c => strContains (lower c.location) l))) &&
       (match indF with
        | none => true
        | some fs => comps.any (fun c => industryHasMatch st fs c)))))).map
      (fun r => { id := r.id, score := ⟨1, 1⟩, typ := "Repository",
                  metadata := nodeMeta r true, connection := none })
  else []

/-- `GraphRAGService._get_top_starred_repos`: one row per owning company
(or one bare row), ORDER BY stars DESC, LIMIT `top_k`; both the repository
embedding and the attached company embedding are popped. -/
def getTopStarredRepos (st : Store) (topK : Nat) : List Match :=
  let rows := (st.nodes.filter (fun r => r.label = "Repository" && r.stars.isSome)).flatMap
    (fun r =>
      let owners := st.edges.filterMap (fun e =>
        if (e.typ = "OWNS" || e.typ = "LIKELY_OWNS") && e.dst = r.id then
          (st.nodes.find? (fun n => n.id = e.src && n.label = "Company")).map (fun c => (c, e))
        else none)
      if owners.isEmpty then [(r, (none : Option (NodeRec × Edge)))]
      else owners.map (fun ce => (r, some ce)))
  let sorted := sortBy (fun a b => decide (b.1.stars.getD 0 ≤ a.1.stars.getD 0)) rows
  (sorted.take topK).map (fun rc =>
    let baseMeta := nodeMeta rc.1 true
    let meta := match rc.2 with
      | none => baseMeta
      | some (c, e) =>
        { baseMeta with
          company := some { id := c.id, name := c.name, description := c.description,
                            location := c.location, batch := c.batch },
          companyRel := some { confidence := e.confidence.getD ⟨0, 1⟩,
                               method := e.method.getD "unknown" } }
    { id := rc.1.id, score := ⟨1, 1⟩, typ := "Repository",
      metadata := meta, connection := none })

/-- Best-confidence `LIKELY_OWNS` owner of a repository
(`ORDER BY coalesce(rel.confidence, 0) DESC LIMIT 1`). -/
def bestLikelyOwner (st : Store) (repoId : String) : Option (NodeRec × Edge) :=
  let cands := st.edges.filterMap (fun e =>
    if e.typ = "LIKELY_OWNS" && e.dst = repoId then
      (st.nodes.find? (fun n => n.id = e.src && n.label = "Company")).map (fun c => (c, e))
    else none)
  (sortBy (fun a b =>
    Frac.ble (b.2.confidence.getD ⟨0, 1⟩) (a.2.confidence.getD ⟨0, 1⟩)) cands).head?

/-- `GraphRAGService._enrich_repository_matches_with_company`. -/
def enrichRepositoryMatches (st : Store) (results : List Match) : List Match :=
  results.map (fun r =>
    if r.typ ≠ "Repository" then r
    else if r.metadata.company.isSome then r
    else if r.metadata.id = "" then r
    else if !(st.nodes.any (fun n => n.id = r.metadata.id && n.label = "Repository")) then r
    else
      match bestLikelyOwner st r.metadata.id with
      | none => r
      | some (c, e) =>
        { r with metadata := { r.metadata with
            company := some { id := c.id, name := c.name, description := c.description,
                              location := c.location, batch := c.batch },
            companyRel := some { confidence := e.confidence.getD ⟨0, 1⟩,
                                 method := e.method.getD "unknown" } } })

/-! ## Response assembly (`GraphRAGService._generate_graph_aware_response`,
`_build_visualization_data`) and the search entry point.

`complete` is the text-generation provider (`none` = the provider call
raises; the source wraps it in no try/except, so the exception propagates).
`fmtScore` renders a score for the prompt (`{score:.2f}` float formatting is
outside the fraction model; the rendered text only feeds the opaque prompt). -/

/-- Python `s[:n]`. -/
def truncTake (s : String) (n : Nat) : String := String.mk (s.data.take n)

/-- `enumerate(xs, start)`. -/
def enumFrom {α : Type} (n : Nat) : List α → List (Nat × α)
  | [] => []
  | x :: t => (n, x) :: enumFrom (n + 1) t

/-- Lines contributed by one direct match to the context block. -/
def directEntryLines (fmtScore : Frac → String) (p : Nat × Match) : List String :=
  let data := p.2.metadata
  [toString p.1 ++ ". **" ++ data.name ++ "** (" ++ p.2.typ ++ ")"] ++
  (if data.description ≠ "" then ["   - " ++ truncTake data.description 150 ++ "..."] else []) ++
  ["   - Relevance Score: " ++ fmtScore p.2.score]

/-- Lines contributed by one connected match to the context block. -/
def connectedEntryLines (p : Match) : List String :=
  let conn := p.connection.getD ⟨"", 0, []⟩
  ["- **" ++ p.metadata.name ++ "** (connected via " ++
    String.intercalate " → " conn.path ++ ")"] ++
  (if p.metadata.description ≠ "" then ["  " ++ truncTake p.metadata.description 100 ++ "..."] else [])

/-- The fixed system prompt of the summary call. -/
def graphSystemPrompt : String :=
  "You are an AI analyst specializing in startup ecosystems. You excel at finding hidden connections and providing strategic insights. Focus on being specific and actionable."

/-- `GraphRAGService._generate_graph_aware_response`: early fallback only for
an empty result list; otherwise the completion call's outcome is returned
as-is (a raising provider propagates, modelled by `none`). -/
def generateGraphAwareResponse (complete : String → String → Option String)
    (fmtScore : Frac → String) (query : String) (results : List Match) :
    Option String :=
  if results.isEmpty then some "No relevant information found for your query."
  else
    let direct := results.filter (fun r => r.connection.isNone)
    let connected := results.filter (fun r => r.connection.isSome)
    let parts1 : List String := ["Based on my analysis of the startup ecosystem:\n"]
    let parts2 := if !direct.isEmpty then
        "**Direct Matches:**" ::
          (enumFrom 1 (direct.take 3)).flatMap (directEntryLines fmtScore)
      else []
    let parts3 := if !connected.isEmpty then
        "\n**Related Entities (discovered through connections):**" ::
          (connected.take 3).flatMap connectedEntryLines
      else []
    let context := String.intercalate "\n" (parts1 ++ parts2 ++ parts3)
    let prompt :=
      "Based on the following search results from our startup ecosystem knowledge graph, \nprovide an insightful response to the user's query. Focus on:\n1. Directly answering the query\n2. Highlighting interesting connections between entities\n3. Providing actionable insights\n4. Mentioning specific names and relationships\n\nUser Query: "
        ++ query ++ "\n\nSearch Results:\n" ++ context ++
        "\n\nProvide a comprehensive yet concise response (max 3-4 paragraphs)."
    complete graphSystemPrompt prompt

structure VizNode where
  id : String
  label : String
  typ : String
  score : Option Frac
deriving DecidableEq

structure VizEdge where
  src : String
  dst : String
  label : String
deriving DecidableEq

structure Viz where
  nodes : List VizNode
  edges : List VizEdge
deriving DecidableEq

/-- Fold of `_build_visualization_data` over the top results. -/
def buildVizAux : List Match → List String → List VizNode → List VizEdge → Viz
  | [], _, ns, es => ⟨ns, es⟩
  | r :: rest, seen, ns, es =>
    let st1 := if r.id ∈ seen then (seen, ns)
      else (r.id :: seen, ns ++ [⟨r.id, r.metadata.name, r.typ, some r.score⟩])
    match r.connection with
    | none => buildVizAux rest st1.1 st1.2 es
    | some conn =>
      let st2 := if conn.fromId ∈ st1.1 then (st1.1, st1.2)
        else (conn.fromId :: st1.1,
          st1.2 ++ [⟨conn.fromId, "Entity " ++ truncTake conn.fromId 8 ++ "...", "Unknown", none⟩])
      buildVizAux rest st2.1 st2.2
        (es ++ [⟨conn.fromId, r.id,
          if conn.path.isEmpty then "connected" else conn.path.getLast?.getD "connected"⟩])

/-- `GraphRAGService._build_visualization_data`. -/
def buildVisualizationData (results : List Match) : Viz :=
  buildVizAux results [] [] []

/-- One value of the `applied_filters` dict. -/
inductive FilterVal where
  | ostr : Option String → FilterVal
  | olist : Option (List String) → FilterVal
  | onum : Option Int → FilterVal
deriving DecidableEq

/-- The `search_params` dict, one shape per return site of `search`. -/
inductive SearchParams where
  | filterOnly : Option String → List (String × FilterVal) → SearchParams
  | special : String → Option String → SearchParams
  | semantic : Nat → Frac → Option String → List (String × FilterVal) → SearchParams
deriving DecidableEq

/-- The response object of `search`. -/
structure SearchResponse where
  query : String
  matchList : List Match
  response : String
  graph : Viz
  totalResults : Nat
  searchParams : SearchParams
deriving DecidableEq

/-- `applied_filters` of the filter-only return site. -/
def mkAppliedFO (loc : Option String) (batch : Option (List String))
    (mrs : Option Int) (roles : Option (List String)) : List (String × FilterVal) :=
  [("location", .ostr loc), ("batch", .olist batch),
   ("min_repo_stars", .onum mrs), ("person_roles", .olist roles)]

/-- `applied_filters` of the semantic return site. -/
def mkAppliedSem (loc : Option String) (batch excl : Option (List String))
    (mrs : Option Int) (roles : Option (List String)) : List (String × FilterVal) :=
  [("location", .ostr loc), ("batch", .olist batch),
   ("exclude_locations", .olist excl),
   ("min_repo_stars", .onum mrs), ("person_roles", .olist roles)]

/-! ## The search routing (`GraphRAGService.search`) -/

/-- `min_repo_stars` after the extracted `min_star` override. -/
def effMinRepoStars (q : String) (mrs0 : Option Int) : Option Int :=
  match (extractNumericFilters q).1.lookup "min_star" with
  | some v => if !(optNumTruthy mrs0) then some (v : Int) else mrs0
  | none => mrs0

/-- `embedding_query = cleaned_query if cleaned_query else query`. -/
def effEmbeddingQuery (q : String) : String :=
  let c := (extractNumericFilters q).2
  if c ≠ "" then c else q

/-- `filter_type` after entity-type auto-detection. -/
def effFilterType (q : String) (ft0 : Option String) : Option String :=
  if optStrTruthy ft0 then ft0
  else
    match detectEntityType q with
    | some d => some d
    | none => ft0

/-- `person_role_filters` after derivation from the query (person type only). -/
def effRoles (q : String) (ft : Option String) (roles0 : Option (List String)) :
    Option (List String) :=
  if ft = some "person" && !(optListTruthy roles0) then
    match derivePersonRolesFromQuery q with
    | some rs => some (rs.map lower)
    | none => roles0
  else roles0

/-- `has_filters` of the filter-only routing check. -/
def queryHasFilters (cfg : Config) (q : String) (ft0 : Option String)
    (roles0 : Option (List String)) (mrs0 : Option Int) : Bool :=
  optListTruthy (extractBatchFromQuery q) ||
  optStrTruthy (extractLocationFromQuery cfg q) ||
  optListTruthy (extractIndustriesFromQuery cfg q) ||
  optListTruthy (effRoles q (effFilterType q ft0) roles0) ||
  optNumTruthy (effMinRepoStars q mrs0)

/-- `has_filters and not is_analytic`: the filter-only routing decision. -/
def routeFilterOnly (cfg : Config) (q : String) (ft0 : Option String)
    (roles0 : Option (List String)) (mrs0 : Option Int) : Bool :=
  queryHasFilters cfg q ft0 roles0 mrs0 && !(queryIsAnalytic q)

/-- Search parameters flowing into the semantic phase. -/
structure SemParams where
  ft : Option String
  roles : Option (List String)
  mrs : Option Int
  embQ : String
  usedPlanner : Bool
deriving DecidableEq

/-- Parameters after the (repeated) detection/derivation block and, for
complex queries, the planner refinement. -/
def plannedParams (llm : String → Option Plan) (q : String) (ft0 : Option String)
    (roles0 : Option (List String)) (mrs0 : Option Int) : SemParams :=
  let mrs1 := effMinRepoStars q mrs0
  let embQ1 := effEmbeddingQuery q
  let ft1 := effFilterType q ft0
  let roles1 := effRoles q ft1 roles0
  let ft2 := effFilterType q ft1
  let roles2 := effRoles q ft2 roles1
  if isComplexQuery q then
    match applyPlan (planQuery llm q) q ft2 roles2 mrs1 embQ1 with
    | (ft3, roles3, mrs3, embQ3) => ⟨ft3, roles3, mrs3, embQ3, true⟩
  else ⟨ft2, roles2, mrs1, embQ1, false⟩

/-- The special-repository-query routing condition (post planner). -/
def isTopStarredRoute (llm : String → Option Plan) (q : String)
    (ft0 : Option String) (roles0 : Option (List String)) (mrs0 : Option Int) : Bool :=
  let p := plannedParams llm q ft0 roles0 mrs0
  p.ft = some "repository" && maxTerms.any (fun t => strContains (lower q) t) &&
    strContains (lower q) "star"

/-- The hybrid phase: embed, search, and (once) escalate to the planner when
nothing was found; returns the possibly-updated parameters and the results. -/
def semanticRaw (cfg : Config) (st : Store) (embed : String → List Frac)
    (llm : String → Option Plan) (q : String) (topK depth : Nat)
    (p : SemParams) : SemParams × List Match :=
  let loc := extractLocationFromQuery cfg q
  let locF := if optStrTruthy loc then loc.map (fun c => aliasesForCode cfg c) else none
  let batch := extractBatchFromQuery q
  let excl := deriveExcludeLocations cfg loc
  let adjK := if optStrTruthy loc then topK * 2 else topK
  let qe := embed p.embQ
  let res0 := hybridSearch st qe p.ft adjK depth locF batch excl p.mrs p.roles
  if res0.isEmpty && !p.usedPlanner then
    match applyPlan (planQuery llm q) q p.ft p.roles p.mrs p.embQ with
    | (ft3, roles3, mrs3, embQ3) =>
      (⟨ft3, roles3, mrs3, embQ3, true⟩,
        hybridSearch st (embed embQ3) ft3 adjK depth locF batch excl mrs3 roles3)
  else (p, res0)

/-- The post-processing of the semantic phase: repository enrichment, the
strict location re-validation (truncating to the caller's `top_k`), and the
direct batch fallback when everything was filtered away. -/
def semanticPost (cfg : Config) (st : Store) (topK : Nat) (loc : Option String)
    (batch : Option (List String)) (results1 : List Match) : List Match :=
  let results2 := if results1.any (fun r => r.typ = "Repository") then
      enrichRepositoryMatches st results1
    else results1
  let results3 := if optStrTruthy loc then
      (results2.filter (fun r => locationMatches cfg (loc.getD "") r.metadata.location)).take topK
    else results2
  if optListTruthy batch && results3.isEmpty then
    findCompaniesByBatch st batch topK
  else results3

/-- `GraphRAGService.search`.  Routing: filter-only path, then the special
top-starred-repositories path, then the semantic (hybrid) path. -/
def searchModel (cfg : Config) (st : Store) (embed : String → List Frac)
    (llm : String → Option Plan) (complete : String → String → Option String)
    (fmtScore : Frac → String) (q : String) (topK depth : Nat)
    (ft0 : Option String) (minScore : Frac) (mrs0 : Option Int)
    (roles0 : Option (List String)) : Option SearchResponse :=
  if routeFilterOnly cfg q ft0 roles0 mrs0 then
    let ft1 := effFilterType q ft0
    let roles1 := effRoles q ft1 roles0
    let mrs1 := effMinRepoStars q mrs0
    let loc := extractLocationFromQuery cfg q
    let batch := extractBatchFromQuery q
    let inds := extractIndustriesFromQuery cfg q
    let locF := if optStrTruthy loc then loc.map (fun c => aliasesForCode cfg c) else none
    let results := filterSearch st ft1 batch locF (expandIndustries cfg inds) roles1 mrs1
    match generateGraphAwareResponse complete fmtScore q results with
    | none => none
    | some resp =>
      some { query := q, matchList := results, response := resp,
             graph := buildVisualizationData (results.take 5),
             totalResults := results.length,
             searchParams := .filterOnly ft1 (mkAppliedFO loc batch mrs1 roles1) }
  else
    let p := plannedParams llm q ft0 roles0 mrs0
    if p.ft = some "repository" && maxTerms.any (fun t => strContains (lower q) t) &&
        strContains (lower q) "star" then
      let results := getTopStarredRepos st topK
      match generateGraphAwareResponse complete fmtScore q results with
      | none => none
      | some resp =>
        some { query := q, matchList := results, response := resp,
               graph := buildVisualizationData (results.take 5),
               totalResults := results.length,
               searchParams := .special "top_starred_repos" (some "repository") }
    else
      let loc := extractLocationFromQuery cfg q
      let batch := extractBatchFromQuery q
      let sr := semanticRaw cfg st embed llm q topK depth p
      let results4 := semanticPost cfg st topK loc batch sr.2
      match generateGraphAwareResponse complete fmtScore q results4 with
      | none => none
      | some resp =>
        some { query := q, matchList := results4, response := resp,
               graph := buildVisualizationData (results4.take 5),
               totalResults := results4.length,
               searchParams := .semantic depth minScore sr.1.ft
                 (mkAppliedSem loc batch (deriveExcludeLocations cfg loc) sr.1.mrs sr.1.roles) }

/-! ## Organization ingestion (`Neo4jStore.create_company_with_embedding`)

The parameter dict passed to the Cypher query, with the `.get` defaults
already applied (`''` for text fields, `'unknown'` for the source); `name`
keeps its possibly-missing status because it has no default. -/

structure CompanyData where
  id : String
  name : Option String
  description : String
  location : String
  locationCode : String
  website : String
  websiteDomain : String
  batch : String
  batchCode : String
  industries : List String
  source : String
deriving DecidableEq

/-- `Neo4jStore._sanitize_company_data`. -/
def sanitizeCompanyData (d : CompanyData) : CompanyData :=
  let website0 := strTrim d.website
  let website1 := if website0.data.head? = some '@' then
      strTrim (String.mk website0.data.tail)
    else website0
  let website2 := if website1 ≠ "" && !("http://".data.isPrefixOf website1.data) &&
      !("https://".data.isPrefixOf website1.data) then "https://" ++ website1 else website1
  { d with
    description := strTrim d.description,
    location := strTrim d.location,
    website := website2,
    industries := (d.industries.map strTrim).filter (fun i => i ≠ "") }

/-- A stored Company node's properties (`none` = the property is absent). -/
structure CompanyNode where
  name : Option String
  description : Option String
  location : Option String
  locationCode : Option String
  website : Option String
  websiteDomain : Option String
  batch : Option String
  batchCode : Option String
  industries : Option (List String)
  source : Option String
  sources : Option (List String)
  embedding : Option (List Frac)
  createdAt : Option Nat
  updatedAt : Option Nat
deriving DecidableEq

/-- `property IS NULL OR property = ''`. -/
def emptyish : Option String → Bool
  | none => true
  | some s => s = ""

/-- The `ON CREATE SET` clause. -/
def onCreateCompany (now : Nat) (p : CompanyData) (emb : List Frac) : CompanyNode :=
  { name := p.name, description := some p.description, location := some p.location,
    locationCode := some p.locationCode, website := some p.website,
    websiteDomain := some p.websiteDomain, batch := some p.batch,
    batchCode := some p.batchCode, industries := some p.industries,
    source := some p.source, sources := some [p.source], embedding := some emb,
    createdAt := some now, updatedAt := some now }

/-- The `ON MATCH SET` clause (fill-only-when-empty; `sources` accumulates;
`source` and `created_at` untouched; `updated_at` refreshed). -/
def onMatchCompany (now : Nat) (p : CompanyData) (emb : List Frac)
    (c : CompanyNode) : CompanyNode :=
  { name := match c.name with
      | some n => some n
      | none => p.name,
    description := if emptyish c.description then some p.description else c.description,
    location := if emptyish c.location then some p.location else c.location,
    locationCode := match c.locationCode with
      | some x => some x
      | none => some p.locationCode,
    website := if emptyish c.website then some p.website else c.website,
    websiteDomain := if emptyish c.websiteDomain then some p.websiteDomain else c.websiteDomain,
    batch := if emptyish c.batch then some p.batch else c.batch,
    batchCode := match c.batchCode with
      | some x => some x
      | none => some p.batchCode,
    industries := match c.industries with
      | none => some p.industries
      | some l => if l.isEmpty then some p.industries else some l,
    source := c.source,
    sources := match c.sources with
      | none => some [p.source]
      | some l => if p.source ∈ l then some l else some (l ++ [p.source]),
    embedding := match c.embedding with
      | some e => some e
      | none => some emb,
    createdAt := c.createdAt,
    updatedAt := some now }

/-- `Neo4jStore.create_company_with_embedding`: sanitize, then
`MERGE (c:Company {id: $id})` — update every node carrying the id, or append
a fresh one.  `now` stands for the transaction's `datetime()`. -/
def createCompanyWithEmbedding (now : Nat) (db : List (String × CompanyNode))
    (raw : CompanyData) (emb : List Frac) : List (String × CompanyNode) :=
  let p := sanitizeCompanyData raw
  if db.any (fun kv => kv.1 = p.id) then
    db.map (fun kv => if kv.1 = p.id then (kv.1, onMatchCompany now p emb kv.2) else kv)
  else db ++ [(p.id, onCreateCompany now p emb)]

/-- Refresh only `updated_at` on the nodes carrying `id`. -/
def refreshUpdatedAt (id : String) (now : Nat) (db : List (String × CompanyNode)) :
    List (String × CompanyNode) :=
  db.map (fun kv => if kv.1 = id then (kv.1, { kv.2 with updatedAt := some now }) else kv)

/-- `Neo4jDataPipeline._generate_id`: the external id when present, else a
hash of `f"{data_type}_{name}_{source}"` (`hashlib.md5` is modelled by the
`hash` parameter, a fixed function of the content string). -/
def generateId (hash : String → String) (itemId : Option String)
    (dataType name source : String) : String :=
  match itemId with
  | some i => i
  | none => hash (dataType ++ "_" ++ name ++ "_" ++ source)

/-! ## General lemmas -/

theorem mem_of_mem_take {α : Type} {a : α} {n : Nat} {l : List α}
    (h : a ∈ List.take n l) : a ∈ l := (List.take_sublist n l).subset h

theorem mem_dedupKFAux_iff {α : Type} [DecidableEq α] {x : α} :
    ∀ (l seen : List α), x ∈ dedupKFAux seen l ↔ x ∈ l ∧ x ∉ seen := by
  intro l
  induction l with
  | nil => intro seen; simp [dedupKFAux]
  | cons y t ih =>
    intro seen
    by_cases hy : y ∈ seen
    · rw [dedupKFAux, if_pos hy, ih]
      constructor
      · rintro ⟨hx, hs⟩; exact ⟨List.mem_cons_of_mem y hx, hs⟩
      · rintro ⟨hx, hs⟩
        rcases List.mem_cons.mp hx with rfl | hx
        · exact absurd hy hs
        · exact ⟨hx, hs⟩
    · rw [dedupKFAux, if_neg hy]
      constructor
      · intro hx
        rcases List.mem_cons.mp hx with rfl | hx
        · exact ⟨List.mem_cons_self _ _, hy⟩
        · have h2 := (ih (y :: seen)).mp hx
          exact ⟨List.mem_cons_of_mem y h2.1,
            fun hs => h2.2 (List.mem_cons_of_mem y hs)⟩
      · rintro ⟨hx, hs⟩
        rcases List.mem_cons.mp hx with rfl | hx
        · exact List.mem_cons_self _ _
        · by_cases hxy : x = y
          · subst hxy; exact List.mem_cons_self _ _
          · refine List.mem_cons_of_mem y ((ih (y :: seen)).mpr ⟨hx, ?_⟩)
            intro hmem
            rcases List.mem_cons.mp hmem with h1 | h1
            · exact hxy h1
            · exact hs h1

theorem mem_dedupKF_iff {α : Type} [DecidableEq α] {x : α} {l : List α} :
    x ∈ dedupKF l ↔ x ∈ l := by
  rw [dedupKF, mem_dedupKFAux_iff]
  simp

theorem lookup_dictInsert_self :
    ∀ (l : List (String × Nat)) (k : String) (v : Nat),
      (dictInsert l k v).lookup k = some v := by
  intro l k v
  induction l with
  | nil => simp [dictInsert, List.lookup]
  | cons p t ih =>
    rcases p with ⟨k0, v0⟩
    by_cases h : k0 = k
    · subst h
      simp [dictInsert, List.lookup]
    · have hb : (k == k0) = false := beq_eq_false_iff_ne.mpr (Ne.symm h)
      simp [dictInsert, h, List.lookup, ih, hb]

theorem lookup_dictInsert_ne {k2 k : String} (h : k2 ≠ k) :
    ∀ (l : List (String × Nat)) (v : Nat),
      (dictInsert l k v).lookup k2 = l.lookup k2 := by
  intro l v
  induction l with
  | nil =>
    have hb : (k2 == k) = false := beq_eq_false_iff_ne.mpr h
    simp [dictInsert, List.lookup, hb]
  | cons p t ih =>
    rcases p with ⟨k0, v0⟩
    by_cases h0 : k0 = k
    · subst h0
      have hb : (k2 == k0) = false := beq_eq_false_iff_ne.mpr h
      simp [dictInsert, List.lookup, hb]
    · simp only [dictInsert, if_neg h0, List.lookup]
      rw [ih]

theorem applyNum_lookup_preserved :
    ∀ (ms : List MRec) (fs : List (String × Nat)) (cq : List Char) (k : String),
      (∀ m ∈ ms, m.key ≠ k) →
      ((applyNumMatches ms (fs, cq)).1).lookup k = fs.lookup k := by
  intro ms
  induction ms with
  | nil => intro fs cq k _; rfl
  | cons m t ih =>
    intro fs cq k h
    rw [applyNumMatches, ih _ _ _ (fun m2 hm2 => h m2 (List.mem_cons_of_mem m hm2))]
    exact lookup_dictInsert_ne (Ne.symm (h m (List.mem_cons_self m t))) fs m.value

theorem applyNum_lookup :
    ∀ (ms : List MRec) (fs : List (String × Nat)) (cq : List Char),
      ((ms.map (fun m => m.key)).Nodup) →
      ∀ m ∈ ms, ((applyNumMatches ms (fs, cq)).1).lookup m.key = some m.value := by
  intro ms
  induction ms with
  | nil => intro fs cq _ m hm; cases hm
  | cons m0 t ih =>
    intro fs cq hnd m hm
    have hnd0 : m0.key ∉ t.map (fun m => m.key) := (List.nodup_cons.mp hnd).1
    rcases List.mem_cons.mp hm with rfl | hm
    · rw [applyNumMatches,
        applyNum_lookup_preserved t _ _ m.key
          (fun m2 hm2 h2 => hnd0 (h2 ▸ List.mem_map_of_mem (fun m => m.key) hm2))]
      exact lookup_dictInsert_self fs m.key m.value
    · exact ih _ _ (List.nodup_cons.mp hnd).2 m hm

/-- Key lookup after the full extraction fold, assuming pairwise distinct
filter keys among the matches. -/
theorem numericFilters_lookup (q : String)
    (hnd : ((allNumMatches q).map (fun m => m.key)).Nodup) :
    ∀ m ∈ allNumMatches q,
      (extractNumericFilters q).1.lookup m.key = some m.value := by
  intro m hm
  have hperm := sortBy_perm (fun a b => decide (b.start ≤ a.start)) (allNumMatches q)
  have hnd2 : ((sortBy (fun a b => decide (b.start ≤ a.start)) (allNumMatches q)).map
      (fun m => m.key)).Nodup := ((hperm.map _).nodup_iff).mpr hnd
  have hm2 : m ∈ sortBy (fun a b => decide (b.start ≤ a.start)) (allNumMatches q) :=
    mem_sortBy.mpr hm
  exact applyNum_lookup _ [] q.data hnd2 m hm2

/-- C3, counterexample: the query contains the spec's example phrase
"more than 100 stars", yet `min_star` is 200 (the reverse-order fold makes
the leftmost phrase win on duplicate keys), so the claimed binding of each
phrase's number to its key fails as stated. -/
theorem C3_counterexample :
    strContains "more than 200 stars and more than 100 stars" "more than 100 stars" = true ∧
    (extractNumericFilters "more than 200 stars and more than 100 stars").1.lookup "min_star"
      = some 200 ∧
    ¬ (extractNumericFilters "more than 200 stars and more than 100 stars").1.lookup "min_star"
      = some 100 := by
  refine ⟨by decide, by decide, by decide⟩

/-- C3, amended: when the matched comparison phrases produce pairwise
distinct filter keys, every matched phrase's key `{direction}_{metric}`
(with the trailing `s` stripped) maps to that phrase's number; matched spans
are removed from the query text in reverse position order, and in
particular the single-phrase query "projects with more than 100 stars"
yields exactly `{min_star: 100}` with the phrase absent from the cleaned
text "projects with". -/
theorem C3_amended :
    (∀ q : String, ((allNumMatches q).map (fun m => m.key)).Nodup →
      ∀ m ∈ allNumMatches q,
        (extractNumericFilters q).1.lookup m.key = some m.value) ∧
    (extractNumericFilters "projects with more than 100 stars"
        = ([("min_star", 100)], "projects with") ∧
      strContains "projects with" "more than 100 stars" = false) := by
  refine ⟨numericFilters_lookup, by decide, by decide⟩

/-- C3, witness: the amended theorem evaluated on the concrete single-phrase
query. -/
theorem C3_amended_witness :
    (extractNumericFilters "projects with more than 100 stars").1.lookup "min_star"
      = some 100 :=
  C3_amended.1 "projects with more than 100 stars" (by decide)
    ⟨14, 33, "min_star", 100⟩ (by decide)

/-! ## C4: batch token extraction -/

theorem strMk_cons_ne_empty (c : Char) (t : List Char) : String.mk (c :: t) ≠ "" := by
  intro h
  have h2 : (c :: t) = ([] : List Char) := congrArg String.data h
  cases h2

theorem strMk_append_ne_empty (l : List Char) (c : Char) (t : List Char) :
    String.mk (l ++ c :: t) ≠ "" := by
  intro h
  have h2 : (l ++ c :: t) = ([] : List Char) := congrArg String.data h
  simp at h2

/-- When the first `\b([ws])\s*'?\s*(20)?(\d{2})\b` match on the lowered
query yields season `c` and year digits `d1 d2`, the batch token set
contains the long form, the year, and the compact code. -/
theorem batchTokens_of_regex1 (q : String) (c d1 d2 : Char)
    (h : searchBatch1 (lcList q.data) = some (c, d1, d2)) :
    ∃ ts, extractBatchFromQuery q = some ts ∧
      String.mk (seasonChars c ++ [' ', '2', '0', d1, d2]) ∈ ts ∧
      String.mk ['2', '0', d1, d2] ∈ ts ∧ String.mk [c, d1, d2] ∈ ts := by
  have hq : q ≠ "" := by
    intro hq
    subst hq
    have h0 : searchBatch1 (lcList ("" : String).data) = none := rfl
    rw [h0] at h
    cases h
  simp only [extractBatchFromQuery, if_neg hq, h]
  set t2l := (match searchBatch2 (lcList q.data) with
    | some (w, d1, d2) => [String.mk (w.data ++ [' ', '2', '0', d1, d2])]
    | none => []) with ht2
  set t3l := (match searchBatch3 (lcList q.data) with
    | some (c, d1, d2) => [String.mk (seasonChars c ++ [' ', '2', '0', d1, d2])]
    | none => []) with ht3
  set base := ([String.mk (seasonChars c ++ [' ', '2', '0', d1, d2]),
    String.mk ['2', '0', d1, d2], String.mk [c, d1, d2]] ++ t2l ++ t3l) with hbase
  have hm1 : String.mk (seasonChars c ++ [' ', '2', '0', d1, d2]) ∈
      base.filter (fun t => t ≠ "") := by
    rw [List.mem_filter]
    refine ⟨by simp [hbase], ?_⟩
    simp only [decide_eq_true_eq]
    exact strMk_append_ne_empty _ _ _
  have hm2 : String.mk ['2', '0', d1, d2] ∈ base.filter (fun t => t ≠ "") := by
    rw [List.mem_filter]
    refine ⟨by simp [hbase], ?_⟩
    simp only [decide_eq_true_eq]
    exact strMk_cons_ne_empty _ _
  have hm3 : String.mk [c, d1, d2] ∈ base.filter (fun t => t ≠ "") := by
    rw [List.mem_filter]
    refine ⟨by simp [hbase], ?_⟩
    simp only [decide_eq_true_eq]
    exact strMk_cons_ne_empty _ _
  have hd1 := mem_dedupKF_iff.mpr hm1
  have hd2 := mem_dedupKF_iff.mpr hm2
  have hd3 := mem_dedupKF_iff.mpr hm3
  have hne : (dedupKF (base.filter (fun t => t ≠ ""))).isEmpty = false := by
    cases ht : dedupKF (base.filter (fun t => t ≠ "")) with
    | nil => rw [ht] at hd1; cases hd1
    | cons a l => rfl
  refine ⟨_, ?_, hd1, hd2, hd3⟩
  simp only [hne, Bool.false_eq_true, if_false]

/-- C4, counterexample: the query "Winter 2024" contains the recognized
batch pattern "winter 2024" (case-insensitively), but the extracted token
set is exactly `["winter 2024"]` — it contains neither "2024" nor "w24",
because only the compact-code regex appends the year and compact forms. -/
theorem C4_counterexample :
    strContains (lower "Winter 2024") "winter 2024" = true ∧
    extractBatchFromQuery "Winter 2024" = some ["winter 2024"] ∧
    ¬ ("w24" ∈ (["winter 2024"] : List String)) ∧
    ¬ ("2024" ∈ (["winter 2024"] : List String)) := by
  refine ⟨by decide, by decide, by decide, by decide⟩

/-- C4, amended: whenever the first compact season-year match on the
lowercased query is `([ws])(\d{2})` (e.g. "w24", "w'24", "yc w24"), the
token set contains at least the long form, the year, and the compact code;
a query whose only batch pattern is the long form "Winter 2024" yields just
`["winter 2024"]`. -/
theorem C4_amended :
    (∀ (q : String) (c d1 d2 : Char),
      searchBatch1 (lcList q.data) = some (c, d1, d2) →
      ∃ ts, extractBatchFromQuery q = some ts ∧
        String.mk (seasonChars c ++ [' ', '2', '0', d1, d2]) ∈ ts ∧
        String.mk ['2', '0', d1, d2] ∈ ts ∧ String.mk [c, d1, d2] ∈ ts) ∧
    extractBatchFromQuery "Winter 2024" = some ["winter 2024"] :=
  ⟨batchTokens_of_regex1, by decide⟩

/-- C4, witness: the amended theorem evaluated on "yc w24". -/
theorem C4_amended_witness :
    ∃ ts, extractBatchFromQuery "yc w24" = some ts ∧
      String.mk (seasonChars 'w' ++ [' ', '2', '0', '2', '4']) ∈ ts ∧
      String.mk ['2', '0', '2', '4'] ∈ ts ∧ String.mk ['w', '2', '4'] ∈ ts :=
  C4_amended.1 "yc w24" 'w' '2' '4' (by decide)

/-! ## Store-level structural lemmas -/

theorem vectorSearch_elim {st : Store} {qe : List Frac} {nt : Option String}
    {topK : Nat} {minS : Frac} {locF batchF exclF : Option (List String)}
    {mrs : Option Int} {roleF : Option (List String)} {m : Match}
    (hm : m ∈ vectorSearch st qe nt topK minS locF batchF exclF mrs roleF) :
    ∃ p : NodeRec × Frac, p.2 = st.cos qe (p.1.embedding.getD []) ∧
      m = { id := p.1.id, score := p.2, typ := p.1.label,
            metadata := nodeMeta p.1 true, connection := none } := by
  unfold vectorSearch at hm
  rcases List.mem_map.mp hm with ⟨p, hp, rfl⟩
  have hp2 := mem_sortBy.mp (mem_of_mem_take hp)
  have hp3 := (List.mem_filter.mp hp2).1
  rcases List.mem_map.mp hp3 with ⟨n, _, rfl⟩
  exact ⟨_, rfl, rfl⟩

theorem vectorSearch_conn_none {st : Store} {qe : List Frac} {nt : Option String}
    {topK : Nat} {minS : Frac} {locF batchF exclF : Option (List String)}
    {mrs : Option Int} {roleF : Option (List String)} {m : Match}
    (hm : m ∈ vectorSearch st qe nt topK minS locF batchF exclF mrs roleF) :
    m.connection = none := by
  rcases vectorSearch_elim hm with ⟨p, _, rfl⟩
  rfl

theorem vectorSearch_emb_none {st : Store} {qe : List Frac} {nt : Option String}
    {topK : Nat} {minS : Frac} {locF batchF exclF : Option (List String)}
    {mrs : Option Int} {roleF : Option (List String)} {m : Match}
    (hm : m ∈ vectorSearch st qe nt topK minS locF batchF exclF mrs roleF) :
    m.metadata.embedding = none := by
  rcases vectorSearch_elim hm with ⟨p, _, rfl⟩
  rfl

theorem vectorSearch_score_den {st : Store} {qe : List Frac} {nt : Option String}
    {topK : Nat} {minS : Frac} {locF batchF exclF : Option (List String)}
    {mrs : Option Int} {roleF : Option (List String)} {m : Match}
    (hden : ∀ v e, (st.cos v e).den ≠ 0)
    (hm : m ∈ vectorSearch st qe nt topK minS locF batchF exclF mrs roleF) :
    m.score.den ≠ 0 := by
  rcases vectorSearch_elim hm with ⟨p, hp, rfl⟩
  simpa [hp] using hden qe (p.1.embedding.getD [])

theorem pathRecs_dist {edges : List Edge} :
    ∀ (fuel : Nat) (pos : String) (used : List Nat) (dist : Nat) (rels : List String)
      (pr : String × Nat × List String),
      pr ∈ pathRecs edges fuel pos used dist rels → dist + 1 ≤ pr.2.1 := by
  intro fuel
  induction fuel with
  | zero => intro pos used dist rels pr h; cases h
  | succ fuel ih =>
    intro pos used dist rels pr h
    rw [pathRecs] at h
    rcases List.mem_flatMap.mp h with ⟨step, _, hpr⟩
    rcases List.mem_cons.mp hpr with rfl | hpr
    · exact Nat.le_refl _
    · have := ih step.1 (step.2.1 :: used) (dist + 1) (rels ++ [step.2.2]) pr hpr
      omega

theorem expansionRecords_spec {st : Store} {startId : String} {depth : Nat}
    {nt : Option String} {locF batchF exclF : Option (List String)}
    {mrs : Option Int} {roleF : Option (List String)}
    {rec : NodeRec × Nat × List String}
    (h : rec ∈ expansionRecords st startId depth nt locF batchF exclF mrs roleF) :
    1 ≤ rec.2.1 ∧ rec.1.id ≠ startId := by
  unfold expansionRecords at h
  have h2 := mem_dedupKF_iff.mp (mem_sortBy.mp (mem_of_mem_take h))
  rcases List.mem_filterMap.mp h2 with ⟨pr, hpr, hf⟩
  split at hf
  · cases hf
  · rename_i n hfind
    split at hf
    · rename_i hcond
      rcases Option.some.inj hf with rfl
      have hbne : (n.id != startId) = true := by
        simp only [Bool.and_eq_true] at hcond
        exact hcond.1.1.1.1.1.1
      refine ⟨?_, bne_iff_ne.mp hbne⟩
      have h3 := pathRecs_dist depth startId [] 0 [] pr hpr
      show 1 ≤ pr.2.1
      omega
    · cases hf

theorem mkExpansionMatch_id (seed : Match) (rec : NodeRec × Nat × List String) :
    (mkExpansionMatch seed rec).id = rec.1.id := rfl

theorem expandLoopInner_spec (seed : Match) :
    ∀ (recs : List (NodeRec × Nat × List String)) (seen : List String) (acc : List Match),
      (acc.map (fun m => m.id)).Nodup → (∀ m ∈ acc, m.id ∈ seen) →
      (((expandLoopInner seed recs seen acc).2.map (fun m => m.id)).Nodup ∧
        (∀ m ∈ (expandLoopInner seed recs seen acc).2,
          m.id ∈ (expandLoopInner seed recs seen acc).1)) ∧
      (∀ x ∈ seen, x ∈ (expandLoopInner seed recs seen acc).1) ∧
      (∀ m ∈ (expandLoopInner seed recs seen acc).2,
        m ∈ acc ∨ (m.id ∉ seen ∧ ∃ rec ∈ recs, m = mkExpansionMatch seed rec)) := by
  intro recs
  induction recs with
  | nil =>
    intro seen acc h1 h2
    exact ⟨⟨h1, h2⟩, fun x hx => hx, fun m hm => Or.inl hm⟩
  | cons rec rs ih =>
    intro seen acc h1 h2
    by_cases hmem : rec.1.id ∈ seen
    · rw [expandLoopInner, if_pos hmem]
      have hr := ih seen acc h1 h2
      refine ⟨hr.1, hr.2.1, fun m hm => ?_⟩
      rcases hr.2.2 m hm with h3 | ⟨h3, rec2, hrec2, heq⟩
      · exact Or.inl h3
      · exact Or.inr ⟨h3, rec2, List.mem_cons_of_mem _ hrec2, heq⟩
    · rw [expandLoopInner, if_neg hmem]
      have hnew1 : ((acc ++ [mkExpansionMatch seed rec]).map (fun m => m.id)).Nodup := by
        rw [List.map_append]
        rw [List.nodup_append]
        refine ⟨h1, List.nodup_singleton _, ?_⟩
        intro x hx hy
        simp only [List.map_cons, List.map_nil, List.mem_singleton,
          mkExpansionMatch_id] at hy
        rcases List.mem_map.mp hx with ⟨m2, hm2, rfl⟩
        exact hmem (hy ▸ h2 m2 hm2)
      have hnew2 : ∀ m ∈ acc ++ [mkExpansionMatch seed rec],
          m.id ∈ rec.1.id :: seen := by
        intro m hm
        rcases List.mem_append.mp hm with ha | hb
        · exact List.mem_cons_of_mem _ (h2 m ha)
        · rcases List.mem_singleton.mp hb with rfl
          exact List.mem_cons_self _ _
      have hr := ih (rec.1.id :: seen) (acc ++ [mkExpansionMatch seed rec]) hnew1 hnew2
      refine ⟨hr.1, fun x hx => hr.2.1 x (List.mem_cons_of_mem _ hx), fun m hm => ?_⟩
      rcases hr.2.2 m hm with h3 | ⟨h3, rec2, hrec2, heq⟩
      · rcases List.mem_append.mp h3 with ha | hb
        · exact Or.inl ha
        · rcases List.mem_singleton.mp hb with rfl
          exact Or.inr ⟨hmem, rec, List.mem_cons_self _ _, rfl⟩
      · exact Or.inr ⟨fun hs => h3 (List.mem_cons_of_mem _ hs), rec2,
          List.mem_cons_of_mem _ hrec2, heq⟩

theorem expandSeeds_spec (st : Store) (depth : Nat) (nt : Option String)
    (locF batchF exclF : Option (List String)) (mrs : Option Int)
    (roleF : Option (List String)) :
    ∀ (seeds : List Match) (seen : List String) (acc : List Match),
      (acc.map (fun m => m.id)).Nodup → (∀ m ∈ acc, m.id ∈ seen) →
      ((expandSeeds st depth nt locF batchF exclF mrs roleF seeds seen acc).map
          (fun m => m.id)).Nodup ∧
      (∀ m ∈ expandSeeds st depth nt locF batchF exclF mrs roleF seeds seen acc,
        m ∈ acc ∨ ∃ seed ∈ seeds,
          ∃ rec ∈ expansionRecords st seed.id depth nt locF batchF exclF mrs roleF,
            m = mkExpansionMatch seed rec) := by
  intro seeds
  induction seeds with
  | nil =>
    intro seen acc h1 _
    exact ⟨h1, fun m hm => Or.inl hm⟩
  | cons seed rest ih =>
    intro seen acc h1 h2
    rw [expandSeeds]
    have h2w : ∀ m ∈ acc, m.id ∈ seed.id :: seen :=
      fun m hm => List.mem_cons_of_mem _ (h2 m hm)
    have hinner := expandLoopInner_spec seed
      (expansionRecords st seed.id depth nt locF batchF exclF mrs roleF)
      (seed.id :: seen) acc h1 h2w
    have hrec := ih _ _ hinner.1.1 hinner.1.2
    refine ⟨hrec.1, fun m hm => ?_⟩
    rcases hrec.2 m hm with h3 | ⟨seed2, hseed2, rec2, hrec2, heq⟩
    · rcases hinner.2.2 m h3 with h4 | ⟨_, rec2, hrec2, heq⟩
      · exact Or.inl h4
      · exact Or.inr ⟨seed, List.mem_cons_self _ _, rec2, hrec2, heq⟩
    · exact Or.inr ⟨seed2, List.mem_cons_of_mem _ hseed2, rec2, hrec2, heq⟩

theorem hybridExpanded_spec (st : Store) (qe : List Frac) (nt : Option String)
    (topK depth : Nat) (locF batchF exclF : Option (List String))
    (mrs : Option Int) (roleF : Option (List String)) :
    ((hybridExpanded st qe nt topK depth locF batchF exclF mrs roleF).map
        (fun m => m.id)).Nodup ∧
    (∀ m ∈ hybridExpanded st qe nt topK depth locF batchF exclF mrs roleF,
      ∃ seed ∈ (vectorSearch st qe nt (topK * 2) ⟨0, 1⟩ locF batchF exclF mrs roleF).take 5,
        ∃ rec ∈ expansionRecords st seed.id depth nt locF batchF exclF mrs roleF,
          m = mkExpansionMatch seed rec) := by
  have h := expandSeeds_spec st depth nt locF batchF exclF mrs roleF
    ((vectorSearch st qe nt (topK * 2) ⟨0, 1⟩ locF batchF exclF mrs roleF).take 5)
    [] [] (by simp) (by simp)
  refine ⟨h.1, fun m hm => ?_⟩
  rcases h.2 m hm with h2 | h2
  · cases h2
  · exact h2

theorem hybridSearch_mem_split {st : Store} {qe : List Frac} {nt : Option String}
    {topK depth : Nat} {locF batchF exclF : Option (List String)}
    {mrs : Option Int} {roleF : Option (List String)} {m : Match}
    (hm : m ∈ hybridSearch st qe nt topK depth locF batchF exclF mrs roleF) :
    m ∈ vectorSearch st qe nt (topK * 2) ⟨0, 1⟩ locF batchF exclF mrs roleF ∨
    m ∈ hybridExpanded st qe nt topK depth locF batchF exclF mrs roleF := by
  have hm2 : m ∈ List.take topK (sortBy (fun a b => Frac.ble b.score a.score)
      (vectorSearch st qe nt (topK * 2) ⟨0, 1⟩ locF batchF exclF mrs roleF ++
        hybridExpanded st qe nt topK depth locF batchF exclF mrs roleF)) := hm
  exact List.mem_append.mp (mem_sortBy.mp (mem_of_mem_take hm2))

theorem hybridSearch_nodup_of_short (st : Store) (qe : List Frac) (nt : Option String)
    (topK depth : Nat) (locF batchF exclF : Option (List String))
    (mrs : Option Int) (roleF : Option (List String))
    (h : (vectorSearch st qe nt (topK * 2) ⟨0, 1⟩ locF batchF exclF mrs roleF).length ≤ 1) :
    ((hybridSearch st qe nt topK depth locF batchF exclF mrs roleF).map
        (fun m => m.id)).Nodup := by
  cases hv : vectorSearch st qe nt (topK * 2) ⟨0, 1⟩ locF batchF exclF mrs roleF with
  | nil =>
    have hexp : hybridExpanded st qe nt topK depth locF batchF exclF mrs roleF = [] := by
      unfold hybridExpanded
      rw [hv]
      rfl
    simp only [hybridSearch, hv, hexp]
    simp [sortBy]
  | cons v vs =>
    cases vs with
    | cons v2 vs2 => rw [hv] at h; simp at h
    | nil =>
      have hinner := expandLoopInner_spec v
        (expansionRecords st v.id depth nt locF batchF exclF mrs roleF)
        [v.id] [] (by simp) (by simp)
      have hexp : hybridExpanded st qe nt topK depth locF batchF exclF mrs roleF =
          (expandLoopInner v
            (expansionRecords st v.id depth nt locF batchF exclF mrs roleF)
            [v.id] []).2 := by
        unfold hybridExpanded
        rw [hv]
        rfl
      have hids : (((expandLoopInner v
          (expansionRecords st v.id depth nt locF batchF exclF mrs roleF)
          [v.id] []).2).map (fun m => m.id)).Nodup := hinner.1.1
      have hne : ∀ m ∈ (expandLoopInner v
          (expansionRecords st v.id depth nt locF batchF exclF mrs roleF)
          [v.id] []).2, m.id ≠ v.id := by
        intro m hm
        rcases hinner.2.2 m hm with h0 | ⟨h0, _⟩
        · cases h0
        · intro he
          exact h0 (he ▸ List.mem_cons_self _ _)
      simp only [hybridSearch, hv, hexp]
      have hnd : (((v :: (expandLoopInner v
          (expansionRecords st v.id depth nt locF batchF exclF mrs roleF)
          [v.id] []).2)).map (fun m => m.id)).Nodup := by
        rw [List.map_cons, List.nodup_cons]
        refine ⟨?_, hids⟩
        intro hmem
        rcases List.mem_map.mp hmem with ⟨m, hm, hid⟩
        exact hne m hm hid
      have hperm := (sortBy_perm (fun a b => Frac.ble b.score a.score)
        ([v] ++ (expandLoopInner v
          (expansionRecords st v.id depth nt locF batchF exclF mrs roleF)
          [v.id] []).2)).map (fun m => m.id)
      have hnd2 : (((sortBy (fun a b => Frac.ble b.score a.score)
          ([v] ++ (expandLoopInner v
            (expansionRecords st v.id depth nt locF batchF exclF mrs roleF)
            [v.id] []).2)).map (fun m => m.id))).Nodup :=
        hperm.nodup_iff.mpr (by simpa using hnd)
      rw [List.map_take]
      exact List.Nodup.sublist (List.take_sublist _ _) hnd2

/-! ## Concrete stores and configurations used by counterexamples and
witnesses -/

def nodeA : NodeRec :=
  { id := "A", label := "Company", name := "Acme", description := "",
    location := "", batch := "", stars := none, role := none, roles := none,
    embedding := some [⟨1, 1⟩], aliases := [] }

def nodeB : NodeRec :=
  { id := "B", label := "Company", name := "Beta", description := "",
    location := "", batch := "", stars := none, role := none, roles := none,
    embedding := some [⟨0, 1⟩], aliases := [] }

/-- Two embedded companies joined by one relationship; `A` scores 9/10 and
`B` 1/2 against any query embedding. -/
def cexStore : Store :=
  { nodes := [nodeA, nodeB], edges := [⟨"A", "B", "REL", none, none⟩],
    cos := fun _ e => if e = [(⟨1, 1⟩ : Frac)] then ⟨9, 10⟩ else ⟨1, 2⟩ }

theorem cexStore_cos_den : ∀ v e, (cexStore.cos v e).den ≠ 0 := by
  intro v e
  show (if e = [(⟨1, 1⟩ : Frac)] then (⟨9, 10⟩ : Frac) else ⟨1, 2⟩).den ≠ 0
  by_cases h : e = [(⟨1, 1⟩ : Frac)] <;> simp [h]

/-- One-node store (no edges). -/
def storeW1 : Store :=
  { nodes := [nodeA], edges := [], cos := fun _ _ => ⟨1, 2⟩ }

/-- The graph-expansion copy of `B` produced from seed `A` in `cexStore`. -/
def cexExpMatch : Match :=
  { id := "B", score := ⟨1560, 2000⟩, typ := "Company",
    metadata := nodeMeta nodeB false, connection := some ⟨"A", 1, ["REL"]⟩ }

/-- The vector hit for `A` in `cexStore`. -/
def cexVecA : Match :=
  { id := "A", score := ⟨9, 10⟩, typ := "Company",
    metadata := nodeMeta nodeA true, connection := none }

def cfgT : Config :=
  { locationAliases := [("nyc", ["nyc", "new york"])],
    industryAliases := [("fintech", [])], knownIndustries := [] }

def nodeX : NodeRec :=
  { id := "X", label := "Company", name := "Xco", description := "",
    location := "Berlin", batch := "W24", stars := none, role := none,
    roles := none, embedding := some [⟨1, 1⟩], aliases := [] }

def storeC5 : Store := { nodes := [nodeX], edges := [], cos := fun _ _ => ⟨1, 2⟩ }

def nodeNY : NodeRec :=
  { id := "N", label := "Company", name := "NYco", description := "",
    location := "New York, NY", batch := "", stars := none, role := none,
    roles := none, embedding := some [⟨1, 1⟩], aliases := [] }

def storeNY : Store := { nodes := [nodeNY], edges := [], cos := fun _ _ => ⟨1, 2⟩ }

def nodeAcme : NodeRec :=
  { id := "acme", label := "Company", name := "Acme", description := "",
    location := "", batch := "", stars := none, role := none, roles := none,
    embedding := none, aliases := [] }

def nodeBeta : NodeRec :=
  { id := "beta", label := "Company", name := "Beta", description := "",
    location := "", batch := "", stars := none, role := none, roles := none,
    embedding := none, aliases := [] }

def nodeInd : NodeRec :=
  { id := "I1", label := "Industry", name := "fintech", description := "",
    location := "", batch := "", stars := none, role := none, roles := none,
    embedding := none, aliases := [] }

/-- Two companies, one linked to the `fintech` industry hub. -/
def storeC8 : Store :=
  { nodes := [nodeAcme, nodeBeta, nodeInd],
    edges := [⟨"acme", "I1", "IN_INDUSTRY", none, none⟩],
    cos := fun _ _ => ⟨0, 1⟩ }

def nodeRepo : NodeRec :=
  { id := "R1", label := "Repository", name := "repo1", description := "",
    location := "", batch := "", stars := some 5, role := none, roles := none,
    embedding := some [⟨1, 1⟩], aliases := [] }

def storeR : Store := { nodes := [nodeRepo], edges := [], cos := fun _ _ => ⟨0, 1⟩ }

/-- A fixed embedding provider (used in pairs to vary the provider). -/
def embedW1 : String → List Frac := fun _ => [⟨1, 1⟩]

/-- A second, different embedding provider. -/
def embedW2 : String → List Frac := fun _ => [⟨2, 1⟩]

/-- A planner provider that always fails (heuristic fallback fires). -/
def llmNone : String → Option Plan := fun _ => none

/-- A completion provider that always succeeds with "ok". -/
def completeOk : String → String → Option String := fun _ _ => some "ok"

/-- A completion provider that always raises. -/
def completeFail : String → String → Option String := fun _ _ => none

/-- A fixed score renderer. -/
def fmtW : Frac → String := fun _ => "0.00"

/-! ## C1: hybrid-search deduplication -/

/-- C1, counterexample: in `cexStore`, `B` is returned as the second vector
hit and is nevertheless re-added as a graph-expansion result of seed `A`
(`seen_ids` holds only already-processed seeds, not all vector hits), so
`hybrid_search` returns two entries with id "B". -/
theorem C1_counterexample :
    (vectorSearch cexStore [] none (10 * 2) ⟨0, 1⟩ none none none none none).map
        (fun m => m.id) = ["A", "B"] ∧
    (hybridExpanded cexStore [] none 10 1 none none none none none).map
        (fun m => m.id) = ["B"] ∧
    (hybridSearch cexStore [] none 10 1 none none none none none).map
        (fun m => m.id) = ["A", "B", "B"] ∧
    ¬ ((hybridSearch cexStore [] none 10 1 none none none none none).map
        (fun m => m.id)).Nodup := by
  refine ⟨by decide, by decide, by decide, by decide⟩

/-- C1, amended: deduplication is local to the expansion phase — no two
graph-expansion entries share an id and an expansion entry never duplicates
its own seed; global uniqueness is guaranteed only when the vector result
list has at most one entry (a vector hit that is not among the
already-expanded seeds can be re-added by expansion). -/
theorem C1_amended (st : Store) (qe : List Frac) (nt : Option String)
    (topK depth : Nat) (locF batchF exclF : Option (List String))
    (mrs : Option Int) (roleF : Option (List String)) :
    ((hybridExpanded st qe nt topK depth locF batchF exclF mrs roleF).map
        (fun m => m.id)).Nodup ∧
    (∀ m ∈ hybridExpanded st qe nt topK depth locF batchF exclF mrs roleF,
      ∀ c : Conn, m.connection = some c → m.id ≠ c.fromId) ∧
    ((vectorSearch st qe nt (topK * 2) ⟨0, 1⟩ locF batchF exclF mrs roleF).length ≤ 1 →
      ((hybridSearch st qe nt topK depth locF batchF exclF mrs roleF).map
          (fun m => m.id)).Nodup) := by
  refine ⟨(hybridExpanded_spec st qe nt topK depth locF batchF exclF mrs roleF).1,
    ?_, hybridSearch_nodup_of_short st qe nt topK depth locF batchF exclF mrs roleF⟩
  intro m hm c hc
  rcases (hybridExpanded_spec st qe nt topK depth locF batchF exclF mrs roleF).2 m hm
    with ⟨seed, _, rec, hrec, rfl⟩
  have hspec := expansionRecords_spec hrec
  have h0 : (mkExpansionMatch seed rec).connection =
      some ⟨seed.id, rec.2.1, rec.2.2⟩ := rfl
  rw [h0] at hc
  rcases Option.some.inj hc with rfl
  exact hspec.2

/-- C1, witness: the amended theorem's global-uniqueness part evaluated on a
one-node store. -/
theorem C1_amended_witness :
    ((hybridSearch storeW1 [] none 10 1 none none none none none).map
        (fun m => m.id)).Nodup :=
  (C1_amended storeW1 [] none 10 1 none none none none none).2.2 (by decide)

/-! ## C6: expansion score bound -/

/-- C6: every graph-expansion-derived entry of `hybrid_search` carries the
score `0.7 * seed_vector_score + 0.3 * (1 / (hop_distance + 1))` for some
vector seed, with hop distance at least 1, hence strictly below
`0.7 * seed_vector_score + 0.3`.  (`hden` states that the cosine oracle
returns well-formed fractions.) -/
theorem C6_expansion_score (st : Store) (qe : List Frac) (nt : Option String)
    (topK depth : Nat) (locF batchF exclF : Option (List String))
    (mrs : Option Int) (roleF : Option (List String))
    (hden : ∀ v e, (st.cos v e).den ≠ 0) (m : Match)
    (hm : m ∈ hybridSearch st qe nt topK depth locF batchF exclF mrs roleF)
    (c : Conn) (hc : m.connection = some c) :
    1 ≤ c.distance ∧
    ∃ seed ∈ vectorSearch st qe nt (topK * 2) ⟨0, 1⟩ locF batchF exclF mrs roleF,
      c.fromId = seed.id ∧
      m.score.toRat = 7 / 10 * seed.score.toRat + 3 / 10 * (1 / ((c.distance : ℚ) + 1)) ∧
      m.score.toRat < 7 / 10 * seed.score.toRat + 3 / 10 := by
  rcases hybridSearch_mem_split hm with hv | he
  · rw [vectorSearch_conn_none hv] at hc; cases hc
  · rcases (hybridExpanded_spec st qe nt topK depth locF batchF exclF mrs roleF).2 m he
      with ⟨seed, hseed, rec, hrec, rfl⟩
    have hspec := expansionRecords_spec hrec
    have h0 : (mkExpansionMatch seed rec).connection =
        some ⟨seed.id, rec.2.1, rec.2.2⟩ := rfl
    rw [h0] at hc
    rcases Option.some.inj hc with rfl
    have hseedv := mem_of_mem_take hseed
    have hsd : seed.score.den ≠ 0 := vectorSearch_score_den hden hseedv
    have hden1 : (Frac.mul seed.score ⟨7, 10⟩).den ≠ 0 := by
      simp only [Frac.mul]
      exact Nat.mul_ne_zero hsd (by decide)
    have hden2 : (Frac.mul ⟨1, rec.2.1 + 1⟩ ⟨3, 10⟩).den ≠ 0 := by
      simp only [Frac.mul]
      exact Nat.mul_ne_zero (Nat.succ_ne_zero _) (by decide)
    have heq : (mkExpansionMatch seed rec).score.toRat =
        7 / 10 * seed.score.toRat + 3 / 10 * (1 / ((rec.2.1 : ℚ) + 1)) := by
      show (Frac.add (Frac.mul seed.score ⟨7, 10⟩)
        (Frac.mul ⟨1, rec.2.1 + 1⟩ ⟨3, 10⟩)).toRat = _
      rw [Frac.toRat_add _ _ hden1 hden2, Frac.toRat_mul, Frac.toRat_mul]
      have h710 : (⟨7, 10⟩ : Frac).toRat = 7 / 10 := by norm_num [Frac.toRat]
      have h310 : (⟨3, 10⟩ : Frac).toRat = 3 / 10 := by norm_num [Frac.toRat]
      have hinv : (⟨1, rec.2.1 + 1⟩ : Frac).toRat = 1 / ((rec.2.1 : ℚ) + 1) := by
        simp only [Frac.toRat, Int.cast_one]
        push_cast
        ring
      rw [h710, h310, hinv]
      ring
    have hd1 : (1 : ℚ) ≤ (rec.2.1 : ℚ) := by exact_mod_cast hspec.1
    have hpos : (0 : ℚ) < (rec.2.1 : ℚ) + 1 := by linarith
    have hlt1 : 1 / ((rec.2.1 : ℚ) + 1) < 1 := by
      rw [div_lt_one hpos]
      linarith
    have hlt2 : (3 / 10 : ℚ) * (1 / ((rec.2.1 : ℚ) + 1)) < 3 / 10 := by nlinarith
    refine ⟨hspec.1, seed, hseedv, rfl, heq, ?_⟩
    rw [heq]
    linarith

/-- C6, witness: the theorem evaluated at the concrete expansion entry of
`cexStore` (seed score 9/10, distance 1, combined score 78/100). -/
theorem C6_expansion_score_witness :
    1 ≤ (Conn.mk "A" 1 ["REL"]).distance ∧
    ∃ seed ∈ vectorSearch cexStore [] none (10 * 2) ⟨0, 1⟩ none none none none none,
      (Conn.mk "A" 1 ["REL"]).fromId = seed.id ∧
      cexExpMatch.score.toRat =
        7 / 10 * seed.score.toRat + 3 / 10 * (1 / (((Conn.mk "A" 1 ["REL"]).distance : ℚ) + 1)) ∧
      cexExpMatch.score.toRat < 7 / 10 * seed.score.toRat + 3 / 10 :=
  C6_expansion_score cexStore [] none 10 1 none none none none none
    cexStore_cos_den cexExpMatch (by decide) ⟨"A", 1, ["REL"]⟩ rfl

/-! ## C10: embedding stripping -/

theorem filterSearch_emb_none {st : Store} {nt : Option String}
    {batchF locF indF roleF : Option (List String)} {mrs : Option Int} {m : Match}
    (hm : m ∈ filterSearch st nt batchF locF indF roleF mrs) :
    m.metadata.embedding = none := by
  unfold filterSearch at hm
  split_ifs at hm with h1 h2 h3
  · rcases List.mem_map.mp hm with ⟨n, _, rfl⟩; rfl
  · rcases List.mem_map.mp hm with ⟨n, _, rfl⟩; rfl
  · rcases List.mem_map.mp hm with ⟨n, _, rfl⟩; rfl
  · cases hm

theorem findCompaniesByBatch_emb_none {st : Store} {batchF : Option (List String)}
    {limit : Nat} {m : Match} (hm : m ∈ findCompaniesByBatch st batchF limit) :
    m.metadata.embedding = none := by
  unfold findCompaniesByBatch at hm
  rcases List.mem_map.mp hm with ⟨n, _, rfl⟩
  rfl

theorem getTopStarredRepos_emb_none {st : Store} {topK : Nat} {m : Match}
    (hm : m ∈ getTopStarredRepos st topK) : m.metadata.embedding = none := by
  unfold getTopStarredRepos at hm
  rcases List.mem_map.mp hm with ⟨rc, _, rfl⟩
  rcases rc with ⟨r, _ | ⟨cn, e⟩⟩ <;> rfl

/-- C10, counterexample: in `cexStore` the expansion-derived entry (the
second one) retains the stored embedding in its metadata — the source builds
expansion metadata without `pop('embedding', None)`. -/
theorem C10_counterexample :
    (hybridSearch cexStore [] none 10 1 none none none none none).map
        (fun m => (m.connection.isSome, m.metadata.embedding)) =
      [(false, none), (true, some [⟨0, 1⟩]), (false, none)] := by
  decide

/-- C10, amended: `vector_search`, `filter_search`, `find_companies_by_batch`,
the top-starred special case, and the vector-derived part of `hybrid_search`
all strip the stored embedding from returned metadata; only `hybrid_search`'s
graph-expansion entries retain it. -/
theorem C10_amended :
    (∀ (st : Store) (qe : List Frac) (nt : Option String) (topK : Nat)
      (minS : Frac) (locF batchF exclF : Option (List String)) (mrs : Option Int)
      (roleF : Option (List String)) (m : Match),
      m ∈ vectorSearch st qe nt topK minS locF batchF exclF mrs roleF →
      m.metadata.embedding = none) ∧
    (∀ (st : Store) (nt : Option String) (batchF locF indF roleF : Option (List String))
      (mrs : Option Int) (m : Match),
      m ∈ filterSearch st nt batchF locF indF roleF mrs →
      m.metadata.embedding = none) ∧
    (∀ (st : Store) (batchF : Option (List String)) (limit : Nat) (m : Match),
      m ∈ findCompaniesByBatch st batchF limit → m.metadata.embedding = none) ∧
    (∀ (st : Store) (topK : Nat) (m : Match),
      m ∈ getTopStarredRepos st topK → m.metadata.embedding = none) ∧
    (∀ (st : Store) (qe : List Frac) (nt : Option String) (topK depth : Nat)
      (locF batchF exclF : Option (List String)) (mrs : Option Int)
      (roleF : Option (List String)) (m : Match),
      m ∈ hybridSearch st qe nt topK depth locF batchF exclF mrs roleF →
      m.connection = none → m.metadata.embedding = none) := by
  refine ⟨?_, ?_, ?_, ?_, ?_⟩
  · intro st qe nt topK minS locF batchF exclF mrs roleF m hm
    exact vectorSearch_emb_none hm
  · intro st nt batchF locF indF roleF mrs m hm
    exact filterSearch_emb_none hm
  · intro st batchF limit m hm
    exact findCompaniesByBatch_emb_none hm
  · intro st topK m hm
    exact getTopStarredRepos_emb_none hm
  · intro st qe nt topK depth locF batchF exclF mrs roleF m hm hconn
    rcases hybridSearch_mem_split hm with hv | he
    · exact vectorSearch_emb_none hv
    · rcases (hybridExpanded_spec st qe nt topK depth locF batchF exclF mrs roleF).2 m he
        with ⟨seed, _, rec, _, rfl⟩
      have h0 : (mkExpansionMatch seed rec).connection =
          some ⟨seed.id, rec.2.1, rec.2.2⟩ := rfl
      rw [h0] at hconn
      cases hconn

/-- C10, witness: the amended theorem's five parts evaluated on concrete
stores (a vector hit, a filter-search row, a batch-fallback row, a
top-starred row, and a vector-derived hybrid entry). -/
theorem C10_amended_witness :
    cexVecA.metadata.embedding = none ∧
    (Match.mk "acme" ⟨1, 1⟩ "Company" (nodeMeta nodeAcme true) none).metadata.embedding
      = none ∧
    (Match.mk "X" ⟨2, 5⟩ "Company" (nodeMeta nodeX true) none).metadata.embedding
      = none ∧
    (Match.mk "R1" ⟨1, 1⟩ "Repository" (nodeMeta nodeRepo true) none).metadata.embedding
      = none ∧
    cexVecA.metadata.embedding = none :=
  ⟨C10_amended.1 cexStore [] none 20 ⟨0, 1⟩ none none none none none cexVecA (by decide),
   C10_amended.2.1 storeC8 none none none none none none _ (by decide),
   C10_amended.2.2.1 storeC5 (some ["w24"]) 10 _ (by decide),
   C10_amended.2.2.2.1 storeR 10 _ (by decide),
   C10_amended.2.2.2.2 cexStore [] none 10 1 none none none none none cexVecA
     (by decide) rfl⟩

/-! ## C2: filter-only routing never calls the embedding provider -/

theorem extractLocAux_isSome {q : String} :
    ∀ (l : List (String × List String)) (c : String) (as : List String) (al : String),
      (c, as) ∈ l → al ∈ as → strContains q al = true →
      (extractLocAux q l).isSome = true := by
  intro l
  induction l with
  | nil => intro c as al h _ _; cases h
  | cons p t ih =>
    intro c as al hmem hal hsub
    rcases p with ⟨c0, as0⟩
    by_cases h : as0.any (fun a => strContains q a) = true
    · rw [extractLocAux, if_pos h]
      rfl
    · rw [extractLocAux, if_neg h]
      rcases List.mem_cons.mp hmem with heq | hmem2
      · rcases Prod.mk.injEq .. ▸ heq with ⟨rfl, rfl⟩
        exact absurd (List.any_eq_true.mpr ⟨al, hal, hsub⟩) h
      · exact ih c as al hmem2 hal hsub

theorem extractLocAux_mem {q : String} :
    ∀ (l : List (String × List String)) (c : String),
      extractLocAux q l = some c → ∃ as, (c, as) ∈ l := by
  intro l
  induction l with
  | nil => intro c h; cases h
  | cons p t ih =>
    intro c h
    rcases p with ⟨c0, as0⟩
    by_cases hc : as0.any (fun a => strContains q a) = true
    · rw [extractLocAux, if_pos hc] at h
      rcases Option.some.inj h with rfl
      exact ⟨as0, List.mem_cons_self _ _⟩
    · rw [extractLocAux, if_neg hc] at h
      rcases ih c h with ⟨as, has⟩
      exact ⟨as, List.mem_cons_of_mem _ has⟩

/-- A location alias occurring in the query makes the extracted location
code truthy (the loaders never store an empty canonical, `hwf`). -/
theorem locTruthy_of_alias (cfg : Config) (q : String)
    (hwf : ∀ p ∈ cfg.locationAliases, p.1 ≠ "")
    (c : String) (as : List String) (al : String)
    (hmem : (c, as) ∈ cfg.locationAliases) (hal : al ∈ as)
    (hsub : strContains (lower q) al = true) :
    optStrTruthy (extractLocationFromQuery cfg q) = true := by
  have h1 : (extractLocAux (lower q) cfg.locationAliases).isSome = true :=
    extractLocAux_isSome cfg.locationAliases c as al hmem hal hsub
  rcases Option.isSome_iff_exists.mp h1 with ⟨c2, hc2⟩
  rcases extractLocAux_mem cfg.locationAliases c2 hc2 with ⟨as2, hmem2⟩
  have hne := hwf _ hmem2
  show optStrTruthy (extractLocAux (lower q) cfg.locationAliases) = true
  rw [hc2]
  simpa [optStrTruthy] using hne

/-- C2: a query containing a location alias and no analytic term is routed
to the filter-only path — the response is independent of the embedding
provider (the same output for any two providers), and the returned search
params witness the filter-only route. -/
theorem C2_filter_only_noninterference (cfg : Config) (st : Store)
    (embed1 embed2 : String → List Frac) (llm : String → Option Plan)
    (complete : String → String → Option String) (fmtScore : Frac → String)
    (q : String) (topK depth : Nat) (ft0 : Option String) (minScore : Frac)
    (mrs0 : Option Int) (roles0 : Option (List String))
    (hwf : ∀ p ∈ cfg.locationAliases, p.1 ≠ "")
    (c : String) (as : List String) (al : String)
    (hmem : (c, as) ∈ cfg.locationAliases) (hal : al ∈ as)
    (hsub : strContains (lower q) al = true)
    (hana : queryIsAnalytic q = false) :
    searchModel cfg st embed1 llm complete fmtScore q topK depth ft0 minScore mrs0 roles0 =
      searchModel cfg st embed2 llm complete fmtScore q topK depth ft0 minScore mrs0 roles0 ∧
    (∀ r, searchModel cfg st embed1 llm complete fmtScore q topK depth ft0 minScore
        mrs0 roles0 = some r →
      ∃ ftR af, r.searchParams = SearchParams.filterOnly ftR af) := by
  have hloc : optStrTruthy (extractLocationFromQuery cfg q) = true :=
    locTruthy_of_alias cfg q hwf c as al hmem hal hsub
  have hhf : queryHasFilters cfg q ft0 roles0 mrs0 = true := by
    unfold queryHasFilters
    rw [hloc]
    simp
  have hroute : routeFilterOnly cfg q ft0 roles0 mrs0 = true := by
    unfold routeFilterOnly
    rw [hhf, hana]
    rfl
  constructor
  · simp only [searchModel, hroute, if_true]
  · intro r hr
    simp only [searchModel, hroute, if_true] at hr
    split at hr
    · cases hr
    · rcases Option.some.inj hr with rfl
      exact ⟨_, _, rfl⟩

/-- C2, witness: the theorem evaluated on "companies in nyc" with two
distinct embedding providers. -/
theorem C2_witness :
    searchModel cfgT storeC8 embedW1 llmNone completeOk fmtW "companies in nyc"
        10 2 none ⟨7, 10⟩ none none =
      searchModel cfgT storeC8 embedW2 llmNone completeOk fmtW "companies in nyc"
        10 2 none ⟨7, 10⟩ none none ∧
    (∀ r, searchModel cfgT storeC8 embedW1 llmNone completeOk fmtW "companies in nyc"
        10 2 none ⟨7, 10⟩ none none = some r →
      ∃ ftR af, r.searchParams = SearchParams.filterOnly ftR af) :=
  C2_filter_only_noninterference cfgT storeC8 embedW1 embedW2 llmNone completeOk fmtW
    "companies in nyc" 10 2 none ⟨7, 10⟩ none none (by decide)
    "nyc" ["nyc", "new york"] "nyc" (by decide) (by decide) (by decide) (by decide)

/-! ## C5: strict location re-validation on the semantic path -/

theorem hybridSearch_length_le (st : Store) (qe : List Frac) (nt : Option String)
    (topK depth : Nat) (locF batchF exclF : Option (List String))
    (mrs : Option Int) (roleF : Option (List String)) :
    (hybridSearch st qe nt topK depth locF batchF exclF mrs roleF).length ≤ topK := by
  unfold hybridSearch
  rw [List.length_take]
  exact min_le_left _ _

theorem semanticRaw_snd_len (cfg : Config) (st : Store) (embed : String → List Frac)
    (llm : String → Option Plan) (q : String) (topK depth : Nat) (p : SemParams)
    (hl : optStrTruthy (extractLocationFromQuery cfg q) = true) :
    (semanticRaw cfg st embed llm q topK depth p).2.length ≤ 2 * topK := by
  simp only [semanticRaw, hl, if_true]
  split
  · rcases happ : applyPlan (planQuery llm q) q p.ft p.roles p.mrs p.embQ
      with ⟨a, b, c2, d⟩
    simp only [happ]
    exact le_trans (hybridSearch_length_le _ _ _ _ _ _ _ _ _ _) (by omega)
  · exact le_trans (hybridSearch_length_le _ _ _ _ _ _ _ _ _ _) (by omega)

theorem enrich_length (st : Store) (rs : List Match) :
    (enrichRepositoryMatches st rs).length = rs.length := List.length_map _ _

/-- The post-processing with a truthy location code and no batch tokens:
strict alias filtering of the (possibly enriched) pool, truncated to the
caller's `top_k`. -/
theorem semanticPost_loc (cfg : Config) (st : Store) (topK : Nat) (c : String)
    (RS : List Match) (hc : c ≠ "") :
    semanticPost cfg st topK (some c) none RS =
      ((if RS.any (fun r => r.typ = "Repository") then enrichRepositoryMatches st RS
        else RS).filter
          (fun m => locationMatches cfg c m.metadata.location)).take topK := by
  unfold semanticPost
  simp [optStrTruthy, hc, optListTruthy]

/-- C5, counterexample: for "similar startups in nyc w24" over a store whose
only company sits in Berlin with batch "W24", the semantic path is taken
(location code "nyc" extracted), the strict pass empties the results, and
the batch fallback then returns the Berlin company — whose location matches
no "nyc" alias — in the final matches. -/
theorem C5_counterexample :
    extractLocationFromQuery cfgT "similar startups in nyc w24" = some "nyc" ∧
    routeFilterOnly cfgT "similar startups in nyc w24" none none none = false ∧
    isTopStarredRoute llmNone "similar startups in nyc w24" none none none = false ∧
    (searchModel cfgT storeC5 embedW1 llmNone completeOk fmtW
        "similar startups in nyc w24" 10 2 none ⟨7, 10⟩ none none).map
      (fun r => r.matchList.map (fun m => (m.id, m.metadata.location))) =
        some [("X", "Berlin")] ∧
    locationMatches cfgT "nyc" "Berlin" = false := by
  refine ⟨by decide, by decide, by decide, by decide, by decide⟩

/-- C5, amended: when a location code is extracted, the semantic path is
taken, and no batch tokens were extracted (so the batch fallback cannot
fire), every returned match's location satisfies the full alias test, the
result is truncated to the caller's `top_k` only at this final step, and the
underlying pool had been widened to at most `2 * top_k` entries. -/
theorem C5_amended (cfg : Config) (st : Store) (embed : String → List Frac)
    (llm : String → Option Plan) (complete : String → String → Option String)
    (fmtScore : Frac → String) (q : String) (topK depth : Nat) (ft0 : Option String)
    (minScore : Frac) (mrs0 : Option Int) (roles0 : Option (List String))
    (c : String)
    (hloc : extractLocationFromQuery cfg q = some c) (hc : c ≠ "")
    (hroute : routeFilterOnly cfg q ft0 roles0 mrs0 = false)
    (hspec : isTopStarredRoute llm q ft0 roles0 mrs0 = false)
    (hbatch : extractBatchFromQuery q = none) :
    ∀ r, searchModel cfg st embed llm complete fmtScore q topK depth ft0 minScore
        mrs0 roles0 = some r →
      (∀ m ∈ r.matchList, locationMatches cfg c m.metadata.location = true) ∧
      r.matchList.length ≤ topK ∧
      ∃ pool : List Match, pool.length ≤ 2 * topK ∧
        r.matchList =
          (pool.filter (fun m => locationMatches cfg c m.metadata.location)).take topK := by
  intro r hr
  have hltruthy : optStrTruthy (extractLocationFromQuery cfg q) = true := by
    rw [hloc]
    simpa [optStrTruthy] using hc
  have hspec2 : ((plannedParams llm q ft0 roles0 mrs0).ft = some "repository" &&
      maxTerms.any (fun t => strContains (lower q) t) &&
      strContains (lower q) "star") = false := by
    simpa [isTopStarredRoute] using hspec
  simp only [searchModel, hroute, Bool.false_eq_true, if_false, hspec2] at hr
  split at hr
  · cases hr
  · rcases Option.some.inj hr with rfl
    dsimp only
    rw [hloc, hbatch, semanticPost_loc cfg st topK c _ hc]
    refine ⟨?_, ?_, ?_⟩
    · intro m hm
      exact (List.mem_filter.mp (mem_of_mem_take hm)).2
    · rw [List.length_take]
      exact min_le_left _ _
    · refine ⟨_, ?_, rfl⟩
      have hlen := semanticRaw_snd_len cfg st embed llm q topK depth
        (plannedParams llm q ft0 roles0 mrs0) hltruthy
      split
      · rw [enrich_length]
        exact hlen
      · exact hlen

/-- The concrete response of `search` for "similar startups in nyc" over
`storeNY` (one New-York company). -/
def c5resp : SearchResponse :=
  { query := "similar startups in nyc",
    matchList := [{ id := "N", score := ⟨1, 2⟩, typ := "Company",
                    metadata := nodeMeta nodeNY true, connection := none }],
    response := "ok",
    graph := ⟨[⟨"N", "NYco", "Company", some ⟨1, 2⟩⟩], []⟩,
    totalResults := 1,
    searchParams := .semantic 2 ⟨7, 10⟩ (some "company")
      (mkAppliedSem (some "nyc") none none none none) }

theorem C5_amended_witness :
    searchModel cfgT storeNY embedW1 llmNone completeOk fmtW
        "similar startups in nyc" 10 2 none ⟨7, 10⟩ none none = some c5resp ∧
    (∀ m ∈ c5resp.matchList, locationMatches cfgT "nyc" m.metadata.location = true) ∧
    c5resp.matchList.length ≤ 10 := by
  have h := C5_amended cfgT storeNY embedW1 llmNone completeOk fmtW
    "similar startups in nyc" 10 2 none ⟨7, 10⟩ none none "nyc"
    (by decide) (by decide) (by decide) (by decide) (by decide) c5resp (by decide)
  exact ⟨by decide, h.1, h.2.1⟩

/-! ## C8: applied-filter echo on the filter-only path -/

/-- C8, counterexample: the query "fintech companies" routes to the
filter-only path with the industry filter `["fintech"]` applied to
`filter_search` (it demonstrably excludes the company without an
IN_INDUSTRY edge), yet `applied_filters` lists only location/batch/stars/
roles — all `None` here — and mentions the industry filter nowhere. -/
theorem C8_counterexample :
    routeFilterOnly cfgT "fintech companies" none none none = true ∧
    expandIndustries cfgT (extractIndustriesFromQuery cfgT "fintech companies")
      = some ["fintech"] ∧
    (filterSearch storeC8 none none none (some ["fintech"]) none none).map
      (fun m => m.id) = ["acme"] ∧
    (filterSearch storeC8 none none none none none none).map
      (fun m => m.id) = ["acme", "beta"] ∧
    (searchModel cfgT storeC8 embedW1 llmNone completeOk fmtW "fintech companies"
        10 2 none ⟨7, 10⟩ none none).map
      (fun r => (r.matchList.map (fun m => m.id), r.searchParams)) =
        some (["acme"],
          SearchParams.filterOnly none (mkAppliedFO none none none none)) ∧
    (∀ kv ∈ mkAppliedFO none none none none,
      kv.2 ≠ FilterVal.olist (some ["fintech"])) := by
  refine ⟨by decide, by decide, by decide, by decide, by decide, by decide⟩

/-- C8, amended: on the filter-only path, `applied_filters` echoes exactly
the location code, batch tokens, star threshold and person roles that are
passed to `filter_search` — but not the industry filter, which is applied to
the store query yet never appears (no "industry" key exists in the dict). -/
theorem C8_amended (cfg : Config) (st : Store) (embed : String → List Frac)
    (llm : String → Option Plan) (complete : String → String → Option String)
    (fmtScore : Frac → String) (q : String) (topK depth : Nat) (ft0 : Option String)
    (minScore : Frac) (mrs0 : Option Int) (roles0 : Option (List String))
    (hroute : routeFilterOnly cfg q ft0 roles0 mrs0 = true) :
    ∀ r, searchModel cfg st embed llm complete fmtScore q topK depth ft0 minScore
        mrs0 roles0 = some r →
      r.matchList = filterSearch st (effFilterType q ft0) (extractBatchFromQuery q)
          (if optStrTruthy (extractLocationFromQuery cfg q) then
            (extractLocationFromQuery cfg q).map (fun c2 => aliasesForCode cfg c2)
          else none)
          (expandIndustries cfg (extractIndustriesFromQuery cfg q))
          (effRoles q (effFilterType q ft0) roles0) (effMinRepoStars q mrs0) ∧
      r.searchParams = SearchParams.filterOnly (effFilterType q ft0)
          (mkAppliedFO (extractLocationFromQuery cfg q) (extractBatchFromQuery q)
            (effMinRepoStars q mrs0) (effRoles q (effFilterType q ft0) roles0)) ∧
      (∀ kv ∈ mkAppliedFO (extractLocationFromQuery cfg q) (extractBatchFromQuery q)
          (effMinRepoStars q mrs0) (effRoles q (effFilterType q ft0) roles0),
        kv.1 ≠ "industry") := by
  intro r hr
  simp only [searchModel, hroute, if_true] at hr
  split at hr
  · cases hr
  · rcases Option.some.inj hr with rfl
    refine ⟨rfl, rfl, ?_⟩
    intro kv hkv
    simp only [mkAppliedFO, List.mem_cons, List.mem_singleton] at hkv
    rcases hkv with rfl | rfl | rfl | hkv
    · exact fun h => absurd h (show ("location" : String) ≠ "industry" by decide)
    · exact fun h => absurd h (show ("batch" : String) ≠ "industry" by decide)
    · exact fun h => absurd h (show ("min_repo_stars" : String) ≠ "industry" by decide)
    · rcases List.mem_singleton.mp (by simpa using hkv) with rfl
      exact fun h => absurd h (show ("person_roles" : String) ≠ "industry" by decide)

/-- The concrete response of `search` for "fintech companies" over
`storeC8` (the industry filter keeps only the linked company). -/
def c8resp : SearchResponse :=
  { query := "fintech companies",
    matchList := [{ id := "acme", score := ⟨1, 1⟩, typ := "Company",
                    metadata := nodeMeta nodeAcme true, connection := none }],
    response := "ok",
    graph := ⟨[⟨"acme", "Acme", "Company", some ⟨1, 1⟩⟩], []⟩,
    totalResults := 1,
    searchParams := .filterOnly none (mkAppliedFO none none none none) }

theorem C8_amended_witness :
    searchModel cfgT storeC8 embedW1 llmNone completeOk fmtW "fintech companies"
        10 2 none ⟨7, 10⟩ none none = some c8resp ∧
    c8resp.searchParams = SearchParams.filterOnly (effFilterType "fintech companies" none)
      (mkAppliedFO (extractLocationFromQuery cfgT "fintech companies")
        (extractBatchFromQuery "fintech companies")
        (effMinRepoStars "fintech companies" none)
        (effRoles "fintech companies" (effFilterType "fintech companies" none) none)) ∧
    (∀ kv ∈ mkAppliedFO (extractLocationFromQuery cfgT "fintech companies")
        (extractBatchFromQuery "fintech companies")
        (effMinRepoStars "fintech companies" none)
        (effRoles "fintech companies" (effFilterType "fintech companies" none) none),
      kv.1 ≠ "industry") := by
  have h := C8_amended cfgT storeC8 embedW1 llmNone completeOk fmtW "fintech companies"
    10 2 none ⟨7, 10⟩ none none (by decide) c8resp (by decide)
  exact ⟨by decide, h.2.1, h.2.2⟩

/-! ## C7: idempotence of organization ingestion -/

/-- Re-matching a freshly created node with the same parameters only
refreshes `updated_at`. -/
theorem onMatch_onCreate (now1 now2 : Nat) (p : CompanyData) (emb : List Frac) :
    onMatchCompany now2 p emb (onCreateCompany now1 p emb) =
      { onCreateCompany now1 p emb with
        updatedAt := some now2 } := by
  cases hn : p.name <;>
    simp [onMatchCompany, onCreateCompany, emptyish, hn]

/-- Re-matching an already re-matched node with the same parameters only
refreshes `updated_at`. -/
theorem onMatch_onMatch (now1 now2 : Nat) (p : CompanyData) (emb : List Frac)
    (c : CompanyNode) :
    onMatchCompany now2 p emb (onMatchCompany now1 p emb c) =
      { onMatchCompany now1 p emb c with
        updatedAt := some now2 } := by
  unfold onMatchCompany
  simp only [CompanyNode.mk.injEq]
  refine ⟨?_, ?_, ?_, ?_, ?_, ?_, ?_, ?_, ?_, by trivial, ?_, ?_, by trivial,
    by trivial⟩
  · cases c.name <;> cases p.name <;> rfl
  · cases h : emptyish c.description <;> simp [h]
  · cases h : emptyish c.location <;> simp [h]
  · cases c.locationCode <;> rfl
  · cases h : emptyish c.website <;> simp [h]
  · cases h : emptyish c.websiteDomain <;> simp [h]
  · cases h : emptyish c.batch <;> simp [h]
  · cases c.batchCode <;> rfl
  · cases c.industries with
    | none => simp
    | some l => cases h : l.isEmpty <;> simp [h]
  · cases c.sources with
    | none => simp
    | some l =>
      by_cases h : p.source ∈ l
      · simp [h]
      · simp [h]
  · cases c.embedding <;> rfl

/-- Every entry of the post-upsert database carrying the merged id is either
a re-matched or a freshly created node for the sanitized parameters. -/
theorem mem_createCompany (now : Nat) (db : List (String × CompanyNode))
    (raw : CompanyData) (emb : List Frac) (kv : String × CompanyNode)
    (hkv : kv ∈ createCompanyWithEmbedding now db raw emb)
    (hk : kv.1 = (sanitizeCompanyData raw).id) :
    (∃ c0, kv.2 = onMatchCompany now (sanitizeCompanyData raw) emb c0) ∨
      kv.2 = onCreateCompany now (sanitizeCompanyData raw) emb := by
  simp only [createCompanyWithEmbedding] at hkv
  split at hkv
  · rcases List.mem_map.mp hkv with ⟨kv0, hkv0, heq⟩
    by_cases hk0 : kv0.1 = (sanitizeCompanyData raw).id
    · rw [if_pos hk0] at heq
      exact Or.inl ⟨kv0.2, by rw [← heq]⟩
    · rw [if_neg hk0] at heq
      rw [← heq] at hk
      exact (hk0 hk).elim
  · rename_i hcond
    rcases List.mem_append.mp hkv with h1 | h2
    · have hfalse : db.any (fun kv => kv.1 = (sanitizeCompanyData raw).id) = false :=
        Bool.eq_false_iff.mpr hcond
      have := List.any_eq_false.mp hfalse kv h1
      simp only [decide_eq_true_eq] at this
      exact (this hk).elim
    · rcases List.mem_singleton.mp h2 with rfl
      exact Or.inr rfl

/-- The upserted database always carries the merged id. -/
theorem any_createCompany (now : Nat) (db : List (String × CompanyNode))
    (raw : CompanyData) (emb : List Frac) :
    (createCompanyWithEmbedding now db raw emb).any
      (fun kv => kv.1 = (sanitizeCompanyData raw).id) = true := by
  simp only [createCompanyWithEmbedding]
  split
  · rename_i hcond
    rcases List.any_eq_true.mp hcond with ⟨kv, hkv, hkey⟩
    refine List.any_eq_true.mpr ⟨_, List.mem_map_of_mem _ hkv, ?_⟩
    rw [if_pos (of_decide_eq_true hkey)]
    exact hkey
  · refine List.any_eq_true.mpr
      ⟨_, List.mem_append_right _ (List.mem_singleton_self _), ?_⟩
    exact decide_eq_true rfl

/-- A second upsert over a database that carries the id and whose id-keyed
entries are all stable under `ON MATCH` reduces to refreshing `updated_at`. -/
theorem createCompany_rerun (now2 : Nat) (db1 : List (String × CompanyNode))
    (raw : CompanyData) (emb : List Frac)
    (hany : db1.any (fun kv => kv.1 = (sanitizeCompanyData raw).id) = true)
    (hprov : ∀ kv ∈ db1, kv.1 = (sanitizeCompanyData raw).id →
      onMatchCompany now2 (sanitizeCompanyData raw) emb kv.2 =
        { kv.2 with
          updatedAt := some now2 }) :
    createCompanyWithEmbedding now2 db1 raw emb =
      refreshUpdatedAt (sanitizeCompanyData raw).id now2 db1 := by
  simp only [createCompanyWithEmbedding, refreshUpdatedAt]
  rw [if_pos hany]
  refine List.map_congr_left ?_
  intro kv hkv
  by_cases hk : kv.1 = (sanitizeCompanyData raw).id
  · rw [if_pos hk, if_pos hk, hprov kv hkv hk]
  · rw [if_neg hk, if_neg hk]

def cdataW : CompanyData :=
  { id := "c1", name := some "Acme", description := "d", location := "NYC",
    locationCode := "nyc", website := "https://acme.com", websiteDomain := "acme.com",
    batch := "W24", batchCode := "w24", industries := ["fintech"], source := "yc" }

/-- C7, counterexample: re-running ingestion with identical input changes the
previously non-empty `updated_at` property of the existing node (the
`ON MATCH SET` clause refreshes it unconditionally), so the upsert is not
literally idempotent — though it still creates no second node. -/
theorem C7_counterexample :
    ((createCompanyWithEmbedding 0 [] cdataW [⟨1, 1⟩]).map
        (fun kv => (kv.1, kv.2.updatedAt)) = [("c1", some 0)]) ∧
    ((createCompanyWithEmbedding 1 (createCompanyWithEmbedding 0 [] cdataW [⟨1, 1⟩])
        cdataW [⟨1, 1⟩]).map
        (fun kv => (kv.1, kv.2.updatedAt)) = [("c1", some 1)]) ∧
    (createCompanyWithEmbedding 1 (createCompanyWithEmbedding 0 [] cdataW [⟨1, 1⟩])
        cdataW [⟨1, 1⟩]).length = 1 := by
  refine ⟨by decide, by decide, by decide⟩

/-- C7, amended: re-running organization ingestion with identical input is a
no-op except for refreshing `updated_at` on the nodes carrying the merged id
— in particular every other previously non-empty field is unchanged — and it
never creates a second node for the same id (the key list is unchanged). -/
theorem C7_amended (now1 now2 : Nat) (db : List (String × CompanyNode))
    (raw : CompanyData) (emb : List Frac) :
    createCompanyWithEmbedding now2 (createCompanyWithEmbedding now1 db raw emb)
        raw emb =
      refreshUpdatedAt (sanitizeCompanyData raw).id now2
        (createCompanyWithEmbedding now1 db raw emb) ∧
    (createCompanyWithEmbedding now2 (createCompanyWithEmbedding now1 db raw emb)
        raw emb).map Prod.fst =
      (createCompanyWithEmbedding now1 db raw emb).map Prod.fst := by
  have key : ∀ kv : String × CompanyNode,
      (if kv.1 = (sanitizeCompanyData raw).id then
        (kv.1, { kv.2 with
                 updatedAt := some now2 }) else kv).1 = kv.1 := by
    intro kv
    split <;> rfl
  have hmain : createCompanyWithEmbedding now2
      (createCompanyWithEmbedding now1 db raw emb) raw emb =
      refreshUpdatedAt (sanitizeCompanyData raw).id now2
        (createCompanyWithEmbedding now1 db raw emb) := by
    refine createCompany_rerun now2 _ raw emb
      (any_createCompany now1 db raw emb) ?_
    intro kv hkv hk
    rcases mem_createCompany now1 db raw emb kv hkv hk with ⟨c0, hc⟩ | hc
    · rw [hc]
      exact onMatch_onMatch now1 now2 (sanitizeCompanyData raw) emb c0
    · rw [hc]
      exact onMatch_onCreate now1 now2 (sanitizeCompanyData raw) emb
  refine ⟨hmain, ?_⟩
  rw [hmain]
  simp only [refreshUpdatedAt, List.map_map]
  refine List.map_congr_left ?_
  intro kv _
  simp only [Function.comp]
  exact key kv

/-- C7, witness: the amended theorem evaluated on the concrete two-run
ingestion of `cdataW`. -/
theorem C7_amended_witness :
    createCompanyWithEmbedding 1 (createCompanyWithEmbedding 0 [] cdataW [⟨1, 1⟩])
        cdataW [⟨1, 1⟩] =
      refreshUpdatedAt (sanitizeCompanyData cdataW).id 1
        (createCompanyWithEmbedding 0 [] cdataW [⟨1, 1⟩]) :=
  (C7_amended 0 1 [] cdataW [⟨1, 1⟩]).1

/-! ## C9: summary generation on completion failure -/

def m9 : Match :=
  { id := "m", score := ⟨1, 1⟩, typ := "Company",
    metadata := nodeMeta nodeNY true, connection := none }

/-- C9, divergence: with a non-empty result list, a failing text-generation
call makes `_generate_graph_aware_response` fail (there is no `try/except`
around the chat call, so the exception propagates) instead of returning the
"no relevant information" fallback — which is produced only for an empty
result list; the failure escapes all the way out of `search`. -/
theorem C9_no_fallback_on_failure :
    generateGraphAwareResponse completeFail fmtW "who funds fintech" [m9] = none ∧
    generateGraphAwareResponse completeFail fmtW "who funds fintech" [] =
      some "No relevant information found for your query." ∧
    searchModel cfgT storeNY embedW1 llmNone completeFail fmtW
      "similar startups in nyc" 10 2 none ⟨7, 10⟩ none none = none := by
  refine ⟨rfl, rfl, by decide⟩

end SEI
